import Mathlib

deriving instance DecidableEq for Except

/-!
Verification of the k8analysis core: bucket paths, the GCP client contract,
the bucket-backed local file cache, FASTQ pair matching, and the job pipeline.

Python strings are modelled as Lean `String`; all string operations used by
the source (`str.split`, `str.join`, `str.count`, `str.replace`, negative
indexing, `startswith`) are implemented below over `String.data` with the
exact Python semantics (in particular `split` keeps empty groups and
`count`/`replace` are non-overlapping, left to right).
-/

namespace K8

/-- Python `s.split(sep)` for a one-character separator, at the level of
character lists.  Like Python, the result is never empty and keeps empty
groups: `split '/' "" = [[]]`, `split '/' "a//b" = [['a'], [], ['b']]`. -/
def splitChar (sep : Char) : List Char → List (List Char)
  | [] => [[]]
  | c :: rest =>
    let grps := splitChar sep rest
    if c = sep then [] :: grps else (c :: grps.headD []) :: grps.tail

/-- Inverse of `splitChar`: interleaves the separator between the groups. -/
def joinChar (sep : Char) : List (List Char) → List Char
  | [] => []
  | [g] => g
  | g :: rest => g ++ sep :: joinChar sep rest

/-- Python `s.split(sep)` on `String`s. -/
def pySplit (sep : Char) (s : String) : List String :=
  (splitChar sep s.data).map String.mk

/-- Python `sep.join(parts)`. -/
def pyJoin (sep : String) : List String → String
  | [] => ""
  | [s] => s
  | s :: rest => s ++ sep ++ pyJoin sep rest

/-- Tests whether the first list is an initial segment of the second. -/
def isPre : List Char → List Char → Bool
  | [], _ => true
  | _ :: _, [] => false
  | p :: ps, c :: cs => p = c && isPre ps cs

/-- Python `s.startswith(pat)`. -/
def pyStartsWith (s pat : String) : Bool := isPre pat.data s.data

/-- Worker for `countOcc`: the extra argument is the number of characters
still to be skipped because they belong to an occurrence already counted
(Python's `str.count` is non-overlapping, scanning left to right). -/
def countOccAux (pat : List Char) : List Char → Nat → Nat
  | [], _ => 0
  | _ :: cs, k + 1 => countOccAux pat cs k
  | c :: cs, 0 =>
    if isPre pat (c :: cs) then 1 + countOccAux pat cs (pat.length - 1)
    else countOccAux pat cs 0

/-- Python `s.count(pat)` for a non-empty pattern. -/
def countOcc (pat cs : List Char) : Nat := countOccAux pat cs 0

/-- Worker for `replaceOcc`, with the same skip-counter device as
`countOccAux`. -/
def replaceOccAux (pat repl : List Char) : List Char → Nat → List Char
  | [], _ => []
  | _ :: cs, k + 1 => replaceOccAux pat repl cs k
  | c :: cs, 0 =>
    if isPre pat (c :: cs) then repl ++ replaceOccAux pat repl cs (pat.length - 1)
    else c :: replaceOccAux pat repl cs 0

/-- Python `s.replace(pat, repl)` for a non-empty pattern: non-overlapping,
left to right. -/
def replaceOcc (pat repl cs : List Char) : List Char := replaceOccAux pat repl cs 0

/-- Lexicographic strict comparison of character lists by code point,
Python's `<` on strings. -/
def charListLt : List Char → List Char → Bool
  | [], [] => false
  | [], _ :: _ => true
  | _ :: _, [] => false
  | a :: as, b :: bs => if a < b then true else if b < a then false else charListLt as bs

/-- Python `s < t` on strings. -/
def strLtB (s t : String) : Bool := charListLt s.data t.data

/-- Shell-glob matching as used by `fnmatch.fnmatch` on POSIX for the
patterns this program builds: `*` matches any sequence, `?` any single
character, every other character itself.  (Bracket classes never occur:
the CLI validation restricts wildcard paths to `[a-zA-Z0-9*/._-]`.) -/
def globMatch : List Char → List Char → Bool
  | [], [] => true
  | '*' :: ps, [] => globMatch ps []
  | _ :: _, [] => false
  | [], _ :: _ => false
  | '*' :: ps, c :: cs => globMatch ps (c :: cs) || globMatch ('*' :: ps) cs
  | '?' :: ps, _ :: cs => globMatch ps cs
  | p :: ps, c :: cs => p = c && globMatch ps cs
termination_by ps cs => (ps.length, cs.length)

/-- Embeds `GCPPath` (`src/gcp/base.py`, identical to the superseded copy in
`src/gcp_client.py`): a frozen dataclass of bucket name and relative path,
ordered structurally. -/
structure GCPPath where
  bucket_name : String
  relative_path : String
deriving DecidableEq, Repr

instance : Inhabited GCPPath := ⟨⟨"", ""⟩⟩

/-- Local filesystem paths, the model of `pathlib.Path` on POSIX: a flag for
absoluteness plus the normalized component list (`pathlib` drops empty and
`"."` components on construction). -/
structure LocalPath where
  absolute : Bool
  components : List String
deriving DecidableEq, Repr

/-- The components `pathlib` keeps from one string segment. -/
def posixComponents (s : String) : List String :=
  (splitChar '/' s.data).filterMap
    (fun c => if c = [] ∨ c = ['.'] then none else some (String.mk c))

/-- The `/` operator of `pathlib.Path`: joining with an absolute string
discards the base. -/
def LocalPath.join (base : LocalPath) (s : String) : LocalPath :=
  if s.data.head? = some '/' then ⟨true, posixComponents s⟩
  else ⟨base.absolute, base.components ++ posixComponents s⟩

/-- `pathlib.Path.name`: the final component, `""` for a bare root. -/
def LocalPath.name (p : LocalPath) : String := p.components.getLastD ""

/-- Appending a literal suffix to the final component, the model of
`Path(str(p) + suffix)` for a relative suffix (used for `.bai` companions). -/
def LocalPath.addSuffix (p : LocalPath) (sfx : String) : LocalPath :=
  match p.components.getLast? with
  | none => ⟨p.absolute, [sfx]⟩
  | some last => ⟨p.absolute, p.components.dropLast ++ [last ++ sfx]⟩

/-- The errors the core can raise.  Each constructor records the Python
exception it stands for:
`invalidGCPPath` = `ValueError` in `GCPPath.from_string`;
`indexError` = `IndexError` from `relative_path[-1]` on an empty string;
`ambiguousReadMarker`/`unbalancedPairs` = the two `ValueError`s of
`FastqPairMatcher`; `remoteFileMissing`/`downloadFailed` = the two
`FileNotFoundError`s of `GCPClient.download_file`;
`localFileMissing`/`uploadFailed` = the two `FileNotFoundError`s of
`GCPClient.upload_file`; `remoteAlreadyExists` = `FileExistsError` in
`GCPFileCache.upload_from_local`; `noInputsFound`/`noRefGenomeFound` =
the `ValueError`s of the job input-discovery steps; `invalidRecordGroup` =
the `ValueError` of `DnaAlignJob._get_read_group_string`; `batchError e` =
the `ValueError(exc)` a batch transfer raises around a task failure `e`. -/
inductive Err where
  | invalidGCPPath (path : String)
  | indexError
  | ambiguousReadMarker (path : GCPPath)
  | unbalancedPairs
  | remoteFileMissing (path : GCPPath)
  | downloadFailed (path : GCPPath)
  | localFileMissing (path : LocalPath)
  | uploadFailed (path : GCPPath)
  | remoteAlreadyExists (path : GCPPath)
  | noInputsFound (path : GCPPath)
  | noRefGenomeFound (path : GCPPath)
  | invalidRecordGroup (s : String)
  | batchError (e : Err)
deriving DecidableEq, Repr

/-- Embeds `GCPPath.from_string`: requires the `gs://` scheme, takes the
third `/`-group as bucket and rejoins the rest.  (The `gs://` test
guarantees the split has at least three groups, so the Python index `[2]`
cannot fail; `getD` never falls back to its default here.) -/
def GCPPath.from_string (path : String) : Except Err GCPPath :=
  if pyStartsWith path "gs://" then
    let parts := pySplit '/' path
    .ok ⟨parts.getD 2 "", pyJoin "/" (parts.drop 3)⟩
  else
    .error (.invalidGCPPath path)

/-- Embeds `GCPPath.__str__`. -/
def GCPPath.str (p : GCPPath) : String :=
  "gs://" ++ p.bucket_name ++ "/" ++ p.relative_path

/-- Embeds `GCPPath.get_parent_directory`: drops a trailing `/`, then the
last `/`-group.  Python evaluates `self.relative_path[-1]` first, which
raises `IndexError` when the relative path is empty. -/
def GCPPath.get_parent_directory (p : GCPPath) : Except Err GCPPath :=
  match p.relative_path.data.getLast? with
  | none => .error .indexError
  | some last =>
    let rel := if last = '/' then String.mk p.relative_path.data.dropLast else p.relative_path
    .ok ⟨p.bucket_name, pyJoin "/" ((pySplit '/' rel).dropLast)⟩

/-- Embeds `GCPPath.append_suffix`. -/
def GCPPath.append_suffix (p : GCPPath) (sfx : String) : GCPPath :=
  ⟨p.bucket_name, p.relative_path ++ sfx⟩

/-- Association-list lookup (model of Python `dict` access). -/
def alookup {α β : Type} [DecidableEq α] (k : α) : List (α × β) → Option β
  | [] => none
  | (a, b) :: rest => if a = k then some b else alookup k rest

/-- Association-list update: overwrite in place if the key is present,
append otherwise (Python `dict` assignment keeps insertion order). -/
def aset {α β : Type} [DecidableEq α] (k : α) (v : β) : List (α × β) → List (α × β)
  | [] => [(k, v)]
  | (a, b) :: rest => if a = k then (k, v) :: rest else (a, b) :: aset k v rest

/-- Keys of an association list, in order. -/
def akeys {α β : Type} (m : List (α × β)) : List α := m.map Prod.fst

/-- File contents are abstracted to a number: the claims only compare
contents for identity, never inspect them. -/
abbrev Content := Nat

/-- The mutable outside world the core acts on: the set of objects in the
buckets and the local filesystem, each mapping a path to its content.
Directories are not modelled; `mkdir` calls are no-ops here. -/
structure World where
  remote : List (GCPPath × Content)
  localFs : List (LocalPath × Content)
deriving DecidableEq, Repr

/-- Observable interactions with the network and the external tools, in
order of occurrence.  Local filesystem reads and writes are not effects:
the claims count network calls and tool invocations. -/
inductive Effect where
  | netExists (p : GCPPath)
  | netDownload (p : GCPPath) (l : LocalPath)
  | netUpload (l : LocalPath) (p : GCPPath)
  | netList (p : GCPPath)
  | netGlob (p : GCPPath)
  | toolRun (tool : String) (out : LocalPath)
deriving DecidableEq, Repr

/-- Embeds `GCPClient.file_exists`: a blob-existence check, one network
call, read-only. -/
def GCPClient.file_exists (p : GCPPath) (w : World) : Bool × List Effect :=
  ((alookup p w.remote).isSome, [.netExists p])

/-- Embeds `GCPClient.download_file`: re-checks remote existence (raising
`FileNotFoundError` when absent), creates parent directories (a no-op in
the model), downloads the blob to `local_path`, then raises
`FileNotFoundError` if the local file is still absent (never the case in
the model, but the check is kept). -/
def GCPClient.download_file (gcp_path : GCPPath) (local_path : LocalPath) (w : World) :
    Except Err Unit × World × List Effect :=
  let (ex, t) := GCPClient.file_exists gcp_path w
  if !ex then
    (.error (.remoteFileMissing gcp_path), w, t)
  else
    let content := (alookup gcp_path w.remote).getD 0
    let w' := { w with localFs := aset local_path content w.localFs }
    if (alookup local_path w'.localFs).isNone then
      (.error (.downloadFailed gcp_path), w', t ++ [.netDownload gcp_path local_path])
    else
      (.ok (), w', t ++ [.netDownload gcp_path local_path])

/-- Embeds `GCPClient.upload_file`: raises `FileNotFoundError` if the local
file is absent, uploads, then re-checks remote existence (always true in
the model after the write, but the check is kept). -/
def GCPClient.upload_file (local_path : LocalPath) (gcp_path : GCPPath) (w : World) :
    Except Err Unit × World × List Effect :=
  if (alookup local_path w.localFs).isNone then
    (.error (.localFileMissing local_path), w, [])
  else
    let content := (alookup local_path w.localFs).getD 0
    let w' := { w with remote := aset gcp_path content w.remote }
    let (ex, t) := GCPClient.file_exists gcp_path w'
    if !ex then
      (.error (.uploadFailed gcp_path), w', .netUpload local_path gcp_path :: t)
    else
      (.ok (), w', .netUpload local_path gcp_path :: t)

/-- Embeds `GCPClient.get_files_in_directory`: normalizes the prefix to end
in `/` (Python indexes `relative_path[-1]`, so an empty relative path
raises `IndexError`), then lists the blobs directly under it — the
`delimiter="/"` argument makes the listing non-recursive, so only names
with no further `/` after the prefix are returned. -/
def GCPClient.get_files_in_directory (path : GCPPath) (w : World) :
    Except Err (List GCPPath) × World × List Effect :=
  match path.relative_path.data.getLast? with
  | none => (.error .indexError, w, [])
  | some last =>
    let pre := if last ≠ '/' then path.relative_path ++ "/" else path.relative_path
    let hits := w.remote.filterMap (fun e =>
      if e.1.bucket_name = path.bucket_name ∧ isPre pre.data e.1.relative_path.data = true
          ∧ ¬ '/' ∈ e.1.relative_path.data.drop pre.data.length
      then some (GCPPath.mk path.bucket_name e.1.relative_path) else none)
    (.ok hits, w, [.netList ⟨path.bucket_name, pre⟩])

/-- Embeds `GCPClient.get_matching_file_paths`: lists blobs sharing the
literal prefix before the first `*`, keeps those whose full name matches
the wildcard pattern (`fnmatch`), and returns them as bucket paths. -/
def GCPClient.get_matching_file_paths (path : GCPPath) (w : World) :
    Except Err (List GCPPath) × World × List Effect :=
  let pre := (pySplit '*' path.relative_path).headD ""
  let hits := w.remote.filterMap (fun e =>
    if e.1.bucket_name = path.bucket_name ∧ isPre pre.data e.1.relative_path.data = true
        ∧ globMatch path.relative_path.data e.1.relative_path.data = true
    then some (GCPPath.mk path.bucket_name e.1.relative_path) else none)
  (.ok hits, w, [.netGlob path])

/-- Embeds `GCPFileCache` (`src/services/gcp/file_cache.py`): the local
mirror rooted at `local_directory`.  The client collaborator is stateless
in the model, so only the root is carried. -/
structure GCPFileCache where
  local_directory : LocalPath
deriving DecidableEq, Repr

def GCPFileCache.SKIP_STATUS : String := "SKIP"

def GCPFileCache.SUCCESS_STATUS : String := "SUCCESS"

/-- Embeds `GCPFileCache.get_local_path`:
`local_directory / bucket_name / relative_path`. -/
def GCPFileCache.get_local_path (cache : GCPFileCache) (gcp_path : GCPPath) : LocalPath :=
  (cache.local_directory.join gcp_path.bucket_name).join gcp_path.relative_path

/-- Embeds `GCPFileCache.download_to_local`: returns `"SKIP"` without any
network call when the mirror file already exists, otherwise delegates to
`GCPClient.download_file` and returns `"SUCCESS"`. -/
def GCPFileCache.download_to_local (cache : GCPFileCache) (gcp_path : GCPPath) (w : World) :
    Except Err String × World × List Effect :=
  let local_path := cache.get_local_path gcp_path
  if (alookup local_path w.localFs).isSome then
    (.ok GCPFileCache.SKIP_STATUS, w, [])
  else
    match GCPClient.download_file gcp_path local_path w with
    | (.error e, w', t) => (.error e, w', t)
    | (.ok _, w', t) => (.ok GCPFileCache.SUCCESS_STATUS, w', t)

/-- Embeds `GCPFileCache.upload_from_local`: raises `FileExistsError` when
the destination already exists remotely, otherwise uploads from the mirror
path and returns `"SUCCESS"`. -/
def GCPFileCache.upload_from_local (cache : GCPFileCache) (gcp_path : GCPPath) (w : World) :
    Except Err String × World × List Effect :=
  let local_path := cache.get_local_path gcp_path
  let (ex, t) := GCPClient.file_exists gcp_path w
  if ex then
    (.error (.remoteAlreadyExists gcp_path), w, t)
  else
    match GCPClient.upload_file local_path gcp_path w with
    | (.error e, w', t') => (.error e, w', t ++ t')
    | (.ok _, w', t') => (.ok GCPFileCache.SUCCESS_STATUS, w', t ++ t')

/-- Runs the download task of every submitted path and collects the
per-task outcomes.  This models the `ThreadPoolExecutor` of
`multiple_download_to_local`: every task is submitted before any result is
inspected and a submitted task always runs to completion (`shutdown` waits
for pending futures), so a failure never prevents a sibling from being
attempted.  The arbitrary interleaving is modelled by the submission
order. -/
def GCPFileCache.runDownloadTasks (cache : GCPFileCache) :
    List GCPPath → World → World × List (GCPPath × Except Err String) × List Effect
  | [], w => (w, [], [])
  | p :: rest, w =>
    let (r, w', t) := cache.download_to_local p w
    let (w'', out, t') := cache.runDownloadTasks rest w'
    (w'', (p, r) :: out, t ++ t')

/-- The first failure among the collected outcomes (the model of the first
failing future surfaced by `as_completed`). -/
def firstFailure : List (GCPPath × Except Err String) → Option Err
  | [] => none
  | (_, .error e) :: _ => some e
  | _ :: rest => firstFailure rest

/-- Embeds `GCPFileCache.multiple_download_to_local`: runs every task, then
raises `ValueError(exc)` around the first observed task failure, if any.
Files transferred by succeeding tasks are never rolled back. -/
def GCPFileCache.multiple_download_to_local (cache : GCPFileCache) (gcp_paths : List GCPPath)
    (w : World) : Except Err Unit × World × List Effect :=
  let (w', outcomes, t) := cache.runDownloadTasks gcp_paths w
  match firstFailure outcomes with
  | some e => (.error (.batchError e), w', t)
  | none => (.ok (), w', t)

/-- Upload counterpart of `runDownloadTasks`, for
`multiple_upload_from_local`. -/
def GCPFileCache.runUploadTasks (cache : GCPFileCache) :
    List GCPPath → World → World × List (GCPPath × Except Err String) × List Effect
  | [], w => (w, [], [])
  | p :: rest, w =>
    let (r, w', t) := cache.upload_from_local p w
    let (w'', out, t') := cache.runUploadTasks rest w'
    (w'', (p, r) :: out, t ++ t')

/-- Embeds `GCPFileCache.multiple_upload_from_local`, with the same batch
policy as `multiple_download_to_local`. -/
def GCPFileCache.multiple_upload_from_local (cache : GCPFileCache) (gcp_paths : List GCPPath)
    (w : World) : Except Err Unit × World × List Effect :=
  let (w', outcomes, t) := cache.runUploadTasks gcp_paths w
  match firstFailure outcomes with
  | some e => (.error (.batchError e), w', t)
  | none => (.ok (), w', t)

/-- Embeds `LocalFastqPair` (`src/jobs/util.py`). -/
structure LocalFastqPair where
  pair_name : String
  read1 : LocalPath
  read2 : LocalPath
deriving DecidableEq, Repr

/-- Embeds `GCPFastqPair` (`src/jobs/util.py`). -/
structure GCPFastqPair where
  pair_name : String
  read1 : GCPPath
  read2 : GCPPath
deriving DecidableEq, Repr

/-- Embeds `GCPFastqPair.get_local_version`. -/
def GCPFastqPair.get_local_version (pair : GCPFastqPair) (cache : GCPFileCache) :
    LocalFastqPair :=
  ⟨pair.pair_name, cache.get_local_path pair.read1, cache.get_local_path pair.read2⟩

def READ1_FASTQ_SUBSTRING : List Char := "_R1_".data

def READ2_FASTQ_SUBSTRING : List Char := "_R2_".data

def READ_PAIR_FASTQ_SUBSTRING : List Char := "_R?_".data

/-- The filename of a bucket path: `relative_path.split("/")[-1]` (the
Python index is safe, a split is never empty). -/
def fileNameOf (p : GCPPath) : String :=
  (pySplit '/' p.relative_path).getLastD ""

/-- The pair name derived from a filename: the marker replaced by the
wildcard token, then everything from the first `.` on removed
(`replace(marker, "_R?_").split(".")[0]`). -/
def pairNameFor (marker : List Char) (fname : String) : String :=
  String.mk ((splitChar '.' (replaceOcc marker READ_PAIR_FASTQ_SUBSTRING fname.data)).headD [])

/-- The classification one loop iteration of `pair_up_gcp_fastq_paths`
performs on a path: `some (true, pairName)` for a read-1 file (exactly one
`_R1_`, no `_R2_`), `some (false, pairName)` for a read-2 file, `none`
when the marker counts are ambiguous. -/
def classifyB (p : GCPPath) : Option (Bool × String) :=
  let fname := fileNameOf p
  let c1 := countOcc READ1_FASTQ_SUBSTRING fname.data
  let c2 := countOcc READ2_FASTQ_SUBSTRING fname.data
  if c1 = 1 ∧ c2 = 0 then some (true, pairNameFor READ1_FASTQ_SUBSTRING fname)
  else if c1 = 0 ∧ c2 = 1 then some (false, pairNameFor READ2_FASTQ_SUBSTRING fname)
  else none

/-- The loop of `pair_up_gcp_fastq_paths`: builds the two pair-name
dictionaries, raising the ambiguity `ValueError` at the first path whose
filename is not marked clearly as read 1 or read 2. -/
def buildMaps : List GCPPath → List (String × GCPPath) → List (String × GCPPath) →
    Except Err (List (String × GCPPath) × List (String × GCPPath))
  | [], m1, m2 => .ok (m1, m2)
  | p :: rest, m1, m2 =>
    match classifyB p with
    | some (true, n) => buildMaps rest (aset n p m1) m2
    | some (false, n) => buildMaps rest m1 (aset n p m2)
    | none => .error (.ambiguousReadMarker p)

/-- The sort key of a `GCPFastqPair`: Python's `order=True` dataclass
compares the tuple of fields, nested pairs standing for the field tuple. -/
def pairKey (pr : GCPFastqPair) :
    String × String × String × String × String :=
  (pr.pair_name, pr.read1.bucket_name, pr.read1.relative_path,
   pr.read2.bucket_name, pr.read2.relative_path)

/-- Strict lexicographic combination of two strict comparisons, Python's
tuple `<` one component at a time. -/
def lexLt {α β : Type} [DecidableEq α] (la : α → α → Bool) (lb : β → β → Bool)
    (x y : α × β) : Bool :=
  la x.1 y.1 || (x.1 = y.1 && lb x.2 y.2)

/-- Strict lexicographic comparison of the five-string sort keys. -/
def keyLt : String × String × String × String × String →
    String × String × String × String × String → Bool :=
  lexLt strLtB (lexLt strLtB (lexLt strLtB (lexLt strLtB strLtB)))

/-- The list-sort comparison of `fastq_pairs.sort()`: `a` may precede `b`
iff `a`'s field tuple is not greater, i.e. less or equal. -/
def pairLeB (a b : GCPFastqPair) : Bool :=
  keyLt (pairKey a) (pairKey b) || pairKey a = pairKey b

/-- The comparison as a relation, for sorting. -/
def pairLe (a b : GCPFastqPair) : Prop := pairLeB a b = true

instance : DecidableRel pairLe := fun _ _ => instDecidableEqBool _ _

/-- The tail of `pair_up_gcp_fastq_paths` after the classification loop:
the key-set balance check (`set(keys1) != set(keys2)` raising
`ValueError`), then one pair per read-1 key, sorted.  (The dictionary
access `pair_name_to_read2[pair_name]` cannot fail after the key-set
check, so the `getD` default is never used.) -/
def joinPairs (m1 m2 : List (String × GCPPath)) : Except Err (List GCPFastqPair) :=
  if !((akeys m1).all (fun k => (akeys m2).contains k)
      && (akeys m2).all (fun k => (akeys m1).contains k)) then
    .error .unbalancedPairs
  else
    .ok (List.insertionSort pairLe
      (m1.map (fun kv => GCPFastqPair.mk kv.1 kv.2 ((alookup kv.1 m2).getD default))))

/-- Embeds `FastqPairMatcher.pair_up_gcp_fastq_paths`: classify every path,
raise on an ambiguous filename, raise when the read-1 and read-2 key sets
differ, otherwise emit one pair per read-1 key and sort. -/
def pair_up_gcp_fastq_paths (fastq_gcp_paths : List GCPPath) :
    Except Err (List GCPFastqPair) :=
  match buildMaps fastq_gcp_paths [] [] with
  | .error e => .error e
  | .ok (m1, m2) => joinPairs m1 m2

/-- Embeds `Config`: only the working directory matters to the modelled
jobs (the cache directory lives in `GCPFileCache`). -/
structure Config where
  local_working_directory : LocalPath
deriving DecidableEq, Repr

/-- The model of `ServiceProvider`: the lazily constructed singletons
(client, cache, toolbox, parser) degenerate to plain values in a pure
model, so only the stateful collaborators are carried. -/
structure ServiceProvider where
  gcp_file_cache : GCPFileCache
  config : Config
deriving DecidableEq, Repr

/-- Generic initial-segment test (for wiping a directory subtree). -/
def isPreG {α : Type} [DecidableEq α] : List α → List α → Bool
  | [], _ => true
  | _ :: _, [] => false
  | p :: ps, c :: cs => p = c && isPreG ps cs

/-- Embeds `create_or_cleanup_dir` (`src/util.py`): removes whatever is at
or under the directory, then recreates it (directory creation itself is
not observable in the model). -/
def create_or_cleanup_dir (dir : LocalPath) (w : World) : World :=
  let keep := fun (e : LocalPath × Content) =>
    !(e.1.absolute = dir.absolute && isPreG dir.components e.1.components)
  { w with localFs := w.localFs.filter keep }

/-- Model of `BashToolbox.align_dna_bam` (bwa piped into sambamba), an
external tool treated as an opaque subprocess per the spec: on success the
declared output file exists; its content is opaque (`0`). -/
def BashToolbox.align_dna_bam (_pair : LocalFastqPair) (_ref : LocalPath) (out : LocalPath)
    (_read_group : String) (w : World) : World × List Effect :=
  ({ w with localFs := aset out 0 w.localFs }, [.toolRun "align_dna_bam" out])

/-- Model of `BashToolbox.merge_bams` (sambamba merge): writes the merged
output file. -/
def BashToolbox.merge_bams (_inputs : List LocalPath) (out : LocalPath) (w : World) :
    World × List Effect :=
  ({ w with localFs := aset out 0 w.localFs }, [.toolRun "merge_bams" out])

/-- Model of `BashToolbox.create_bam_index` (sambamba index): writes the
companion `.bai` file next to the given bam. -/
def BashToolbox.create_bam_index (bam : LocalPath) (w : World) : World × List Effect :=
  ({ w with localFs := aset (bam.addSuffix ".bai") 0 w.localFs },
   [.toolRun "create_bam_index" (bam.addSuffix ".bai")])

/-- Model of `BashToolbox.deduplicate_with_umi` (UMICollapse): writes the
deduplicated output bam. -/
def BashToolbox.deduplicate_with_umi (_inp out : LocalPath) (w : World) : World × List Effect :=
  ({ w with localFs := aset out 0 w.localFs }, [.toolRun "deduplicate_with_umi" out])

def isDigitB (c : Char) : Bool := '0' ≤ c && c ≤ '9'

/-- Matcher for the suffix `S[0-9]+_L[0-9]{3}_R[1-2].*` of
`RECORD_GROUP_ID_REGEX`.  The quantifiers need no backtracking here:
`[0-9]+` is followed by `_`, which is not a digit, and `{3}` is exact. -/
def matchSTail : List Char → Bool
  | 'S' :: rest =>
    let digits := rest.takeWhile isDigitB
    let after := rest.dropWhile isDigitB
    !digits.isEmpty &&
      (match after with
       | '_' :: 'L' :: a :: b :: c :: '_' :: 'R' :: r :: _ =>
         isDigitB a && isDigitB b && isDigitB c && (r = '1' || r = '2')
       | _ => false)
  | _ => false

/-- Scanner for `(.*_){2}` followed by `matchSTail`: a prefix matches
`(.*_){2}` exactly when it ends in `_` and contains at least two `_`.
The counter is the number of underscores seen so far. -/
def rgScan : Nat → List Char → Bool
  | _, [] => false
  | seen, c :: rest =>
    let seen' := if c = '_' then seen + 1 else seen
    (c = '_' && decide (2 ≤ seen') && matchSTail rest) || rgScan seen' rest

/-- Embeds `RECORD_GROUP_ID_REGEX.match`: anchored at the start, i.e. the
string decomposes as a `(.*_){2}` prefix followed by a match of
`S[0-9]+_L[0-9]{3}_R[1-2].*`. -/
def recordGroupIdMatches (s : String) : Bool := rgScan 0 s.data

/-- Embeds `DnaAlignJob` (`src/jobs/dna_align.py`). -/
structure DnaAlignJob where
  input_path : GCPPath
  ref_genome : GCPPath
  output_path : GCPPath
deriving DecidableEq, Repr

/-- Embeds `DnaAlignJob._get_read_group_string`: validates the first-dot
prefix of the read-1 filename against `RECORD_GROUP_ID_REGEX` (raising
`ValueError` on mismatch), then assembles the `@RG` string.  (The Python
index `split("_")[1]` is safe: a matching id contains at least two
underscores.) -/
def DnaAlignJob.get_read_group_string (local_fastq_pair : LocalFastqPair)
    (local_output_final_bam_path : LocalPath) : Except Err String :=
  let record_group_id := (pySplit '.' local_fastq_pair.read1.name).headD ""
  if recordGroupIdMatches record_group_id = false then
    .error (.invalidRecordGroup record_group_id)
  else
    let sample_name := (pySplit '.' local_output_final_bam_path.name).headD ""
    let flowcell_id := (pySplit '_' record_group_id).getD 1 ""
    .ok ("@RG\\tID:" ++ record_group_id ++ "\\tLB:" ++ sample_name ++
         "\\tPL:ILLUMINA\\tPU:" ++ flowcell_id ++ "\\tSM:" ++ sample_name)

/-- Embeds `DnaAlignJob._do_lane_alignment_locally`: derives the read-group
string (which may raise), then runs the alignment tool producing the lane
bam. -/
def DnaAlignJob.do_lane_alignment_locally (job : DnaAlignJob) (pair : GCPFastqPair)
    (local_lane_bam : LocalPath) (sp : ServiceProvider) (w : World) :
    Except Err Unit × World × List Effect :=
  let cache := sp.gcp_file_cache
  let local_fastq_pair := pair.get_local_version cache
  let local_reference_genome_path := cache.get_local_path job.ref_genome
  let local_final_bam_path := cache.get_local_path job.output_path
  match DnaAlignJob.get_read_group_string local_fastq_pair local_final_bam_path with
  | .error e => (.error e, w, [])
  | .ok read_group_string =>
    let (w', t) := BashToolbox.align_dna_bam local_fastq_pair local_reference_genome_path
      local_lane_bam read_group_string w
    (.ok (), w', t)

/-- The lane loop of `DnaAlignJob._do_alignment_locally`: one lane bam per
pair, stopping at the first failure. -/
def DnaAlignJob.runLanes (job : DnaAlignJob) (sp : ServiceProvider) :
    List GCPFastqPair → World → Except Err (List LocalPath) × World × List Effect
  | [], w => (.ok [], w, [])
  | pair :: rest, w =>
    let local_lane_bam := sp.config.local_working_directory.join (pair.pair_name ++ ".bam")
    match job.do_lane_alignment_locally pair local_lane_bam sp w with
    | (.error e, w', t) => (.error e, w', t)
    | (.ok _, w', t) =>
      match DnaAlignJob.runLanes job sp rest w' with
      | (.error e, w'', t') => (.error e, w'', t ++ t')
      | (.ok lanes, w'', t') => (.ok (local_lane_bam :: lanes), w'', t ++ t')

/-- Embeds `DnaAlignJob._create_merged_bam_with_index`: a single lane bam
is moved into place (`shutil.move` removes the source), several are
merged; then the index for the merged bam is created. -/
def DnaAlignJob.create_merged_bam_with_index (job : DnaAlignJob)
    (local_lane_bams : List LocalPath) (sp : ServiceProvider) (w : World) :
    World × List Effect :=
  let local_final_bam_path := sp.gcp_file_cache.get_local_path job.output_path
  let (w1, t1) :=
    match local_lane_bams with
    | [lane] =>
      let moved := aset local_final_bam_path ((alookup lane w.localFs).getD 0)
        (w.localFs.filter (fun e => e.1 ≠ lane))
      ({ w with localFs := moved }, ([] : List Effect))
    | lanes => BashToolbox.merge_bams lanes local_final_bam_path w
  let (w2, t2) := BashToolbox.create_bam_index local_final_bam_path w1
  (w2, t1 ++ t2)

/-- Embeds `DnaAlignJob._do_alignment_locally`: fresh working directory,
one lane alignment per pair, merge plus index, working directory cleaned
again on the success path. -/
def DnaAlignJob.do_alignment_locally (job : DnaAlignJob) (fastq_pairs : List GCPFastqPair)
    (sp : ServiceProvider) (w : World) : Except Err Unit × World × List Effect :=
  let local_working_dir := sp.config.local_working_directory
  let w0 := create_or_cleanup_dir local_working_dir w
  match DnaAlignJob.runLanes job sp fastq_pairs w0 with
  | (.error e, w1, t1) => (.error e, w1, t1)
  | (.ok local_lane_bams, w1, t1) =>
    let (w2, t2) := job.create_merged_bam_with_index local_lane_bams sp w1
    let w3 := create_or_cleanup_dir local_working_dir w2
    (.ok (), w3, t1 ++ t2)

/-- Embeds `DnaAlignJob.execute`: idempotency check, glob discovery (with
the empty-result `ValueError`), pairing, reference listing (with the
empty-result `ValueError`), batch download, local alignment, batch upload
of the bam and its `.bai` companion. -/
def DnaAlignJob.execute (job : DnaAlignJob) (sp : ServiceProvider) (w : World) :
    Except Err Unit × World × List Effect :=
  let cache := sp.gcp_file_cache
  let (ex, t0) := GCPClient.file_exists job.output_path w
  if ex then
    (.ok (), w, t0)
  else
    let (r1, w1, t1) := GCPClient.get_matching_file_paths job.input_path w
    match r1 with
    | .error e => (.error e, w1, t0 ++ t1)
    | .ok fastq_gcp_paths =>
      if fastq_gcp_paths = [] then
        (.error (.noInputsFound job.input_path), w1, t0 ++ t1)
      else
        match pair_up_gcp_fastq_paths fastq_gcp_paths with
        | .error e => (.error e, w1, t0 ++ t1)
        | .ok fastq_pairs =>
          match job.ref_genome.get_parent_directory with
          | .error e => (.error e, w1, t0 ++ t1)
          | .ok parent =>
            let (r2, w2, t2) := GCPClient.get_files_in_directory parent w1
            match r2 with
            | .error e => (.error e, w2, t0 ++ t1 ++ t2)
            | .ok reference_genome_bucket_files =>
              if reference_genome_bucket_files = [] then
                (.error (.noRefGenomeFound job.ref_genome), w2, t0 ++ t1 ++ t2)
              else
                let (r3, w3, t3) := cache.multiple_download_to_local
                  (fastq_gcp_paths ++ reference_genome_bucket_files) w2
                match r3 with
                | .error e => (.error e, w3, t0 ++ t1 ++ t2 ++ t3)
                | .ok _ =>
                  let (r4, w4, t4) := job.do_alignment_locally fastq_pairs sp w3
                  match r4 with
                  | .error e => (.error e, w4, t0 ++ t1 ++ t2 ++ t3 ++ t4)
                  | .ok _ =>
                    let (r5, w5, t5) := cache.multiple_upload_from_local
                      [job.output_path, job.output_path.append_suffix ".bai"] w4
                    (r5, w5, t0 ++ t1 ++ t2 ++ t3 ++ t4 ++ t5)

/-- Embeds `UmiDedupJob` (`src/jobs/umi_dedup.py`). -/
structure UmiDedupJob where
  input_path : GCPPath
  output_path : GCPPath
deriving DecidableEq, Repr

/-- Embeds `UmiDedupJob.execute`: idempotency check, batch download of the
input bam and its index, deduplication, index creation, batch upload of
the output bam and its index. -/
def UmiDedupJob.execute (job : UmiDedupJob) (sp : ServiceProvider) (w : World) :
    Except Err Unit × World × List Effect :=
  let cache := sp.gcp_file_cache
  let (ex, t0) := GCPClient.file_exists job.output_path w
  if ex then
    (.ok (), w, t0)
  else
    let (r1, w1, t1) := cache.multiple_download_to_local
      [job.input_path, job.input_path.append_suffix ".bai"] w
    match r1 with
    | .error e => (.error e, w1, t0 ++ t1)
    | .ok _ =>
      let local_input_path := cache.get_local_path job.input_path
      let local_output_path := cache.get_local_path job.output_path
      let (w2, t2) := BashToolbox.deduplicate_with_umi local_input_path local_output_path w1
      let (w3, t3) := BashToolbox.create_bam_index local_output_path w2
      let (r4, w4, t4) := cache.multiple_upload_from_local
        [job.output_path, job.output_path.append_suffix ".bai"] w3
      (r4, w4, t0 ++ t1 ++ t2 ++ t3 ++ t4)

/-- The job kinds whose pipelines the claims exercise, as a sum. -/
inductive Job where
  | dnaAlign (j : DnaAlignJob)
  | umiDedup (j : UmiDedupJob)
deriving DecidableEq, Repr

/-- The declared output object of a job. -/
def Job.output_path : Job → GCPPath
  | .dnaAlign j => j.output_path
  | .umiDedup j => j.output_path

/-- Dispatch of `execute` over the job kinds. -/
def Job.execute : Job → ServiceProvider → World → Except Err Unit × World × List Effect
  | .dnaAlign j => j.execute
  | .umiDedup j => j.execute

/-- Embeds the job loop of `main` (`src/run.py`):
`for job in jobs: job.execute(service_provider)`.  The loop body is not
wrapped in any exception handler, so a raising job aborts the whole loop
and the error propagates to the caller of `main`. -/
def runQueuedJobs (sp : ServiceProvider) : List Job → World →
    Except Err Unit × World × List Effect
  | [], w => (.ok (), w, [])
  | job :: rest, w =>
    match job.execute sp w with
    | (.error e, w', t) => (.error e, w', t)
    | (.ok _, w', t) =>
      match runQueuedJobs sp rest w' with
      | (r, w'', t') => (r, w'', t ++ t')

/-! Lemmas about the Python string primitives. -/

lemma splitChar_cons (sep c : Char) (cs : List Char) :
    splitChar sep (c :: cs) =
      if c = sep then [] :: splitChar sep cs
      else (c :: (splitChar sep cs).headD []) :: (splitChar sep cs).tail := rfl

lemma splitChar_ne_nil (sep : Char) (cs : List Char) : splitChar sep cs ≠ [] := by
  cases cs with
  | nil => simp [splitChar]
  | cons c cs => rw [splitChar_cons]; split <;> simp

lemma joinChar_splitChar (sep : Char) (cs : List Char) :
    joinChar sep (splitChar sep cs) = cs := by
  induction cs with
  | nil => rfl
  | cons c cs ih =>
    obtain ⟨g, t, hgt⟩ := List.exists_cons_of_ne_nil (splitChar_ne_nil sep cs)
    rw [splitChar_cons]
    by_cases h : c = sep
    · subst h
      rw [if_pos rfl, hgt]
      show c :: joinChar c (g :: t) = c :: cs
      rw [← hgt, ih]
    · rw [if_neg h, hgt]
      cases t with
      | nil =>
        show c :: g = c :: cs
        have : joinChar sep [g] = g := rfl
        rw [hgt] at ih
        simpa [this] using congrArg (c :: ·) ih
      | cons t0 ts =>
        show (c :: g) ++ sep :: joinChar sep (t0 :: ts) = c :: cs
        rw [hgt] at ih
        simpa using congrArg (c :: ·) ih

lemma splitChar_length_ge_two (sep : Char) (cs : List Char) (h : sep ∈ cs) :
    2 ≤ (splitChar sep cs).length := by
  induction cs with
  | nil => simp at h
  | cons c cs ih =>
    obtain ⟨g, t, hgt⟩ := List.exists_cons_of_ne_nil (splitChar_ne_nil sep cs)
    rw [splitChar_cons]
    by_cases hc : c = sep
    · rw [if_pos hc]
      have : 1 ≤ (splitChar sep cs).length := by
        rw [hgt]; simp
      simpa using this
    · rw [if_neg hc]
      have hmem : sep ∈ cs := by
        rcases List.mem_cons.mp h with h1 | h1
        · exact absurd h1.symm hc
        · exact h1
      have := ih hmem
      rw [hgt] at this ⊢
      simpa using this

lemma splitChar_no_sep (sep : Char) (cs : List Char) (h : sep ∉ cs) :
    splitChar sep cs = [cs] := by
  induction cs with
  | nil => rfl
  | cons c cs ih =>
    have hc : c ≠ sep := fun hcs => h (hcs ▸ List.mem_cons_self c cs)
    have hcs : sep ∉ cs := fun hm => h (List.mem_cons_of_mem c hm)
    rw [splitChar_cons, if_neg (fun hcc => hc hcc), ih hcs]
    rfl

lemma isPre_eq_append (p : List Char) : ∀ cs : List Char, isPre p cs = true →
    cs = p ++ cs.drop p.length := by
  induction p with
  | nil => intro cs _; simp
  | cons a ps ih =>
    intro cs h
    cases cs with
    | nil => simp [isPre] at h
    | cons c cs' =>
      simp only [isPre, Bool.and_eq_true, decide_eq_true_eq] at h
      obtain ⟨rfl, h2⟩ := h
      simpa using ih cs' h2

lemma pyJoin_map_mk (sep : Char) (gs : List (List Char)) :
    pyJoin (String.mk [sep]) (gs.map String.mk) = String.mk (joinChar sep gs) := by
  induction gs with
  | nil => rfl
  | cons g t ih =>
    cases t with
    | nil => rfl
    | cons g' t' =>
      show String.mk g ++ String.mk [sep] ++ pyJoin (String.mk [sep]) ((g' :: t').map String.mk) =
        String.mk (g ++ sep :: joinChar sep (g' :: t'))
      rw [ih]
      show String.mk ((g ++ [sep]) ++ joinChar sep (g' :: t')) =
        String.mk (g ++ sep :: joinChar sep (g' :: t'))
      simp

/-! Claim C7 — the parse/serialize round trip. -/

/-- C7, counterexample: `"gs://b"` begins with the scheme prefix, so it is a
valid path string (parsing succeeds), but the round trip returns
`"gs://b/"`, not `"gs://b"`: serialization always re-inserts a `/` after
the bucket. -/
theorem c7_roundtrip_counterexample :
    pyStartsWith "gs://b" "gs://" = true ∧
    (GCPPath.from_string "gs://b").map GCPPath.str ≠ .ok "gs://b" := by decide

/-- C7, amended: `parse(s).toString() == s` holds for every string `s` that
begins with `"gs://"` and contains a further `/` after the prefix (i.e.
names a bucket and a relative path); bare-bucket strings like `"gs://b"`
parse but round-trip to `"gs://b/"`. -/
theorem c7_roundtrip_amended (s : String)
    (h1 : pyStartsWith s "gs://" = true) (h2 : '/' ∈ s.data.drop 5) :
    (GCPPath.from_string s).map GCPPath.str = .ok s := by
  have hdata : s.data = "gs://".data ++ s.data.drop 5 :=
    isPre_eq_append "gs://".data s.data h1
  obtain ⟨g, t, hgt⟩ := List.exists_cons_of_ne_nil (splitChar_ne_nil '/' (s.data.drop 5))
  have htne : t ≠ [] := by
    have := splitChar_length_ge_two '/' (s.data.drop 5) h2
    rw [hgt] at this
    intro hnil
    rw [hnil] at this
    simp at this
  have hstep : ∀ (c : Char) (cs : List Char), c ≠ '/' →
      splitChar '/' (c :: cs) = (c :: (splitChar '/' cs).headD []) :: (splitChar '/' cs).tail :=
    fun c cs hc => by rw [splitChar_cons, if_neg hc]
  have hsplit : splitChar '/' s.data = ['g', 's', ':'] :: [] :: splitChar '/' (s.data.drop 5) := by
    rw [hdata]
    show splitChar '/' ('g' :: 's' :: ':' :: '/' :: '/' :: s.data.drop 5) = _
    have e1 : splitChar '/' ('/' :: '/' :: s.data.drop 5) =
        [] :: [] :: splitChar '/' (s.data.drop 5) := rfl
    rw [hstep 'g' _ (by decide), hstep 's' _ (by decide), hstep ':' _ (by decide), e1]
    rfl
  unfold GCPPath.from_string
  rw [if_pos h1]
  show Except.ok (GCPPath.str ⟨(pySplit '/' s).getD 2 "", pyJoin "/" ((pySplit '/' s).drop 3)⟩) =
    Except.ok s
  unfold pySplit
  rw [hsplit, hgt]
  show Except.ok (GCPPath.str ⟨String.mk g, pyJoin "/" (t.map String.mk)⟩) = Except.ok s
  have hjoin : pyJoin "/" (t.map String.mk) = String.mk (joinChar '/' t) :=
    pyJoin_map_mk '/' t
  rw [hjoin]
  have hj : g ++ '/' :: joinChar '/' t = joinChar '/' (g :: t) := by
    cases t with
    | nil => exact absurd rfl htne
    | cons t0 ts => rfl
  have hstr : GCPPath.str ⟨String.mk g, String.mk (joinChar '/' t)⟩ = s := by
    apply String.ext
    show ((("gs://" ++ String.mk g) ++ "/") ++ String.mk (joinChar '/' t)).data = s.data
    simp only [String.data_append]
    show "gs://".data ++ g ++ ['/'] ++ joinChar '/' t = s.data
    rw [List.append_assoc, List.append_assoc]
    show "gs://".data ++ (g ++ '/' :: joinChar '/' t) = s.data
    rw [hj, ← hgt, joinChar_splitChar, ← hdata]
  rw [hstr]

/-- C7, witness: the amended round trip instantiated at `"gs://b/x"`. -/
theorem c7_roundtrip_witness :
    (GCPPath.from_string "gs://b/x").map GCPPath.str = .ok "gs://b/x" :=
  c7_roundtrip_amended "gs://b/x" (by decide) (by decide)

/-! Claim C8 — parent-directory derivation. -/

/-- C8, counterexample: `parse("gs://b/x/").parent().toString()` is
`"gs://b/"`, not `"gs://b"` as claimed (serialization of the bucket root
keeps the trailing slash); moreover on the bucket root itself (empty
relative path, which contains no `/`) `parent()` raises `IndexError`
from `relative_path[-1]` rather than returning anything. -/
theorem c8_parent_counterexample :
    ((GCPPath.from_string "gs://b/x/").bind GCPPath.get_parent_directory).map GCPPath.str ≠
      .ok "gs://b" ∧
    (GCPPath.mk "b" "").get_parent_directory = .error .indexError := by decide

/-- C8, amended: `parent()` drops a trailing slash and then the last
`/`-delimited segment; on a *non-empty* relative path with no `/` it
returns the bucket root (empty relative path) rather than an error, but on
an empty relative path it raises `IndexError`; the worked examples are
`parse("gs://b/x/y/z").parent().toString() == "gs://b/x/y"` and
`parse("gs://b/x/").parent().toString() == "gs://b/"` (not `"gs://b"`). -/
theorem c8_parent_amended :
    (∀ p : GCPPath, p.relative_path.data ≠ [] → '/' ∉ p.relative_path.data →
      p.get_parent_directory = .ok ⟨p.bucket_name, ""⟩) ∧
    ((GCPPath.from_string "gs://b/x/y/z").bind GCPPath.get_parent_directory).map GCPPath.str =
      .ok "gs://b/x/y" ∧
    ((GCPPath.from_string "gs://b/x/").bind GCPPath.get_parent_directory).map GCPPath.str =
      .ok "gs://b/" := by
  refine ⟨?_, by decide, by decide⟩
  intro p hne hns
  unfold GCPPath.get_parent_directory
  split
  · next heq => exact absurd (List.getLast?_eq_none_iff.mp heq) hne
  · next last heq =>
    have hmem : last ∈ p.relative_path.data := by
      have hx : last ∈ p.relative_path.data.getLast? := by simp [heq]
      obtain ⟨h', hlast⟩ := List.mem_getLast?_eq_getLast hx
      rw [hlast]
      exact List.getLast_mem h'
    have hc : last ≠ '/' := fun h => hns (h ▸ hmem)
    rw [if_neg hc]
    show (Except.ok (GCPPath.mk p.bucket_name
        (pyJoin "/" ((List.map String.mk (splitChar '/' p.relative_path.data)).dropLast))) :
      Except Err GCPPath) = Except.ok ⟨p.bucket_name, ""⟩
    rw [splitChar_no_sep '/' p.relative_path.data hns]
    rfl

/-- C8, witness: the general no-slash clause at `gs://b/file.txt`. -/
theorem c8_parent_witness :
    (GCPPath.mk "b" "file.txt").get_parent_directory = .ok ⟨"b", ""⟩ :=
  c8_parent_amended.1 ⟨"b", "file.txt"⟩ (by decide) (by decide)

/-! Claim C9 — the bucket-path to local-path mapping. -/

lemma string_mk_inj {a b : List Char} (h : String.mk a = String.mk b) : a = b :=
  congrArg String.data h

lemma posixComponents_single (s : String) (h1 : s.data ≠ []) (h2 : '/' ∉ s.data)
    (h3 : s ≠ ".") : posixComponents s = [s] := by
  unfold posixComponents
  rw [splitChar_no_sep '/' s.data h2]
  have hdot : s.data ≠ ['.'] := fun hd => h3 (by apply String.ext; simpa using hd)
  simp only [List.filterMap_cons, List.filterMap_nil]
  rw [if_neg (by simp [h1, hdot])]

lemma filterMap_good (L : List (List Char)) (h : ∀ g ∈ L, g ≠ [] ∧ g ≠ ['.']) :
    L.filterMap (fun c => if c = [] ∨ c = ['.'] then none else some (String.mk c)) =
      L.map String.mk := by
  induction L with
  | nil => simp
  | cons g t ih =>
    have hg := h g (List.mem_cons_self g t)
    rw [List.filterMap_cons, if_neg (by simp [hg.1, hg.2]), List.map_cons,
      ih (fun x hx => h x (List.mem_cons_of_mem _ hx))]

lemma posixComponents_eq_map (s : String)
    (h : ∀ g ∈ splitChar '/' s.data, g ≠ [] ∧ g ≠ ['.']) :
    posixComponents s = (splitChar '/' s.data).map String.mk :=
  filterMap_good _ h

lemma head?_ne_slash_of_no_slash (s : String) (h : '/' ∉ s.data) :
    s.data.head? ≠ some '/' := by
  intro hc
  cases hd : s.data with
  | nil => rw [hd] at hc; simp at hc
  | cons c cs =>
    rw [hd] at hc
    have hcr : c = '/' := by simpa using hc
    exact h (by rw [hd, hcr]; exact List.mem_cons_self _ _)

lemma head?_ne_slash_of_good_groups (s : String)
    (h : ∀ g ∈ splitChar '/' s.data, g ≠ [] ∧ g ≠ ['.']) :
    s.data.head? ≠ some '/' := by
  intro hc
  cases hd : s.data with
  | nil => rw [hd] at hc; simp at hc
  | cons c cs =>
    rw [hd] at hc
    have hcr : c = '/' := by simpa using hc
    have hmem : ([] : List Char) ∈ splitChar '/' s.data := by
      rw [hd, hcr, splitChar_cons, if_pos rfl]
      exact List.mem_cons_self _ _
    exact (h [] hmem).1 rfl

/-- C9, counterexample: two distinct bucket paths that map to the same
local path under any cache root — `(bucket "b", path "x/y")` and
`(bucket "b/x", path "y")` both mirror to `root/b/x/y` — so the mapping
`localPathFor` is not injective on all `BucketPath` values. -/
theorem c9_local_path_counterexample :
    GCPPath.mk "b" "x/y" ≠ GCPPath.mk "b/x" "y" ∧
    (GCPFileCache.mk ⟨true, ["root"]⟩).get_local_path ⟨"b", "x/y"⟩ =
      (GCPFileCache.mk ⟨true, ["root"]⟩).get_local_path ⟨"b/x", "y"⟩ := by decide

/-- C9, amended: within one cache root the mapping is injective on
canonical bucket paths — bucket names that are a single non-trivial path
component (non-empty, no `/`, not `.`) and relative paths all of whose
`/`-separated segments are non-empty and not `.`.  (Being a function, the
mapping trivially sends equal bucket paths to equal local paths; but on
arbitrary `BucketPath` values it is not injective, see the
counterexample.) -/
theorem c9_local_path_injective_amended (cache : GCPFileCache) (p q : GCPPath)
    (hpb1 : p.bucket_name.data ≠ []) (hpb2 : '/' ∉ p.bucket_name.data)
    (hpb3 : p.bucket_name ≠ ".")
    (hqb1 : q.bucket_name.data ≠ []) (hqb2 : '/' ∉ q.bucket_name.data)
    (hqb3 : q.bucket_name ≠ ".")
    (hpr : ∀ g ∈ splitChar '/' p.relative_path.data, g ≠ [] ∧ g ≠ ['.'])
    (hqr : ∀ g ∈ splitChar '/' q.relative_path.data, g ≠ [] ∧ g ≠ ['.'])
    (hne : p ≠ q) :
    cache.get_local_path p ≠ cache.get_local_path q := by
  intro heq
  apply hne
  unfold GCPFileCache.get_local_path at heq
  unfold LocalPath.join at heq
  rw [if_neg (head?_ne_slash_of_no_slash _ hpb2),
      if_neg (head?_ne_slash_of_no_slash _ hqb2),
      if_neg (head?_ne_slash_of_good_groups _ hpr),
      if_neg (head?_ne_slash_of_good_groups _ hqr),
      posixComponents_single _ hpb1 hpb2 hpb3,
      posixComponents_single _ hqb1 hqb2 hqb3,
      posixComponents_eq_map _ hpr, posixComponents_eq_map _ hqr] at heq
  have hcomp := congrArg LocalPath.components heq
  simp only [List.append_assoc, List.singleton_append] at hcomp
  have hcons := List.append_cancel_left hcomp
  have hb : p.bucket_name = q.bucket_name := (List.cons.injEq _ _ _ _ ▸ hcons).1
  have hmaps : (splitChar '/' p.relative_path.data).map String.mk =
      (splitChar '/' q.relative_path.data).map String.mk :=
    (List.cons.injEq _ _ _ _ ▸ hcons).2
  have hsplit : splitChar '/' p.relative_path.data = splitChar '/' q.relative_path.data :=
    List.map_injective_iff.mpr (fun _ _ => string_mk_inj) hmaps
  have hrel : p.relative_path = q.relative_path := by
    apply String.ext
    rw [← joinChar_splitChar '/' p.relative_path.data, hsplit, joinChar_splitChar]
  cases p; cases q
  simp_all

/-- C9, witness: the amended injectivity applied to the distinct canonical
paths `gs://b/x` and `gs://b/y`. -/
theorem c9_local_path_witness :
    (GCPFileCache.mk ⟨true, ["root"]⟩).get_local_path ⟨"b", "x"⟩ ≠
      (GCPFileCache.mk ⟨true, ["root"]⟩).get_local_path ⟨"b", "y"⟩ :=
  c9_local_path_injective_amended ⟨⟨true, ["root"]⟩⟩ ⟨"b", "x"⟩ ⟨"b", "y"⟩
    (by decide) (by decide) (by decide) (by decide) (by decide) (by decide)
    (by decide) (by decide) (by decide)

/-! Lemmas about association-list maps. -/

lemma alookup_aset_self {α β : Type} [DecidableEq α] (k : α) (v : β) (m : List (α × β)) :
    alookup k (aset k v m) = some v := by
  induction m with
  | nil => simp [aset, alookup]
  | cons e rest ih =>
    obtain ⟨a, b⟩ := e
    by_cases h : a = k
    · simp [aset, alookup, h]
    · simp [aset, alookup, h, ih]

lemma alookup_aset_ne {α β : Type} [DecidableEq α] {k k' : α} (v : β) (m : List (α × β))
    (h : k' ≠ k) : alookup k' (aset k v m) = alookup k' m := by
  induction m with
  | nil =>
    have hk : ¬ k = k' := fun hh => h hh.symm
    simp [aset, alookup, hk]
  | cons e rest ih =>
    obtain ⟨a, b⟩ := e
    by_cases ha : a = k
    · subst ha
      have hk : ¬ a = k' := fun hh => h hh.symm
      simp [aset, alookup, hk]
    · simp only [aset, if_neg ha, alookup]
      split <;> simp [ih]

lemma alookup_aset_isSome_mono {α β : Type} [DecidableEq α] (k k' : α) (v : β)
    (m : List (α × β)) (h : (alookup k' m).isSome = true) :
    (alookup k' (aset k v m)).isSome = true := by
  by_cases hk : k' = k
  · subst hk; rw [alookup_aset_self]; rfl
  · rwa [alookup_aset_ne v m hk]

/-! Claim C1 — write-once upload. -/

/-- C1: `uploadOne(p)` first makes the single existence check; when the
destination already exists remotely it fails with the
remote-already-exists error (`FileExistsError`) leaving the world
untouched, the trace holding exactly that one read — in particular no
network write is attempted.  When the destination does not exist and the
mirror file is present, it uploads from `localPathFor(p)`: the world gains
the remote object with the mirror file's content, and the trace is the
existence check, the upload, and the post-upload confirmation check. -/
theorem c1_upload_write_once (cache : GCPFileCache) (p : GCPPath) (w : World) :
    ((alookup p w.remote).isSome = true →
      cache.upload_from_local p w = (.error (.remoteAlreadyExists p), w, [.netExists p])) ∧
    ((alookup p w.remote).isSome = false →
      ∀ c, alookup (cache.get_local_path p) w.localFs = some c →
        cache.upload_from_local p w =
          (.ok GCPFileCache.SUCCESS_STATUS, { w with remote := aset p c w.remote },
           [.netExists p, .netUpload (cache.get_local_path p) p, .netExists p])) := by
  constructor
  · intro h
    simp [GCPFileCache.upload_from_local, GCPClient.file_exists, h]
  · intro h c hc
    simp [GCPFileCache.upload_from_local, GCPClient.file_exists, GCPClient.upload_file,
      h, hc, alookup_aset_self]

/-- C1, witness: both clauses at a concrete path; the destination
`gs://b/out` exists in the first world (upload refused, no write
attempted) and is absent in the second (upload performed). -/
theorem c1_upload_write_once_witness :
    (GCPFileCache.mk ⟨true, ["c"]⟩).upload_from_local ⟨"b", "out"⟩ ⟨[(⟨"b", "out"⟩, 5)], []⟩ =
      (.error (.remoteAlreadyExists ⟨"b", "out"⟩), ⟨[(⟨"b", "out"⟩, 5)], []⟩,
       [.netExists ⟨"b", "out"⟩]) ∧
    (GCPFileCache.mk ⟨true, ["c"]⟩).upload_from_local ⟨"b", "out"⟩
        ⟨[], [(⟨true, ["c", "b", "out"]⟩, 7)]⟩ =
      (.ok GCPFileCache.SUCCESS_STATUS,
       ⟨[(⟨"b", "out"⟩, 7)], [(⟨true, ["c", "b", "out"]⟩, 7)]⟩,
       [.netExists ⟨"b", "out"⟩, .netUpload ⟨true, ["c", "b", "out"]⟩ ⟨"b", "out"⟩,
        .netExists ⟨"b", "out"⟩]) :=
  ⟨(c1_upload_write_once ⟨⟨true, ["c"]⟩⟩ ⟨"b", "out"⟩ ⟨[(⟨"b", "out"⟩, 5)], []⟩).1 (by decide),
   (c1_upload_write_once ⟨⟨true, ["c"]⟩⟩ ⟨"b", "out"⟩ ⟨[], [(⟨true, ["c", "b", "out"]⟩, 7)]⟩).2
     (by decide) 7 (by decide)⟩

/-! Claim C3 — idempotent download. -/

/-- C3: `downloadOne(p)` returns `"SKIP"` with no network call and no
world change whenever the mirror file `localPathFor(p)` exists; when the
mirror file is absent and `p` exists remotely with content `c`, it
delegates to the client download (existence check then transfer), returns
`"SUCCESS"`, and the mirror gains the file with content `c`; calling it
again on the resulting world returns `"SKIP"` with no network call and no
change, the mirror file still holding `c` (byte-identical). -/
theorem c3_download_idempotent (cache : GCPFileCache) (p : GCPPath) (w : World) :
    ((alookup (cache.get_local_path p) w.localFs).isSome = true →
      cache.download_to_local p w = (.ok GCPFileCache.SKIP_STATUS, w, [])) ∧
    (∀ c, alookup (cache.get_local_path p) w.localFs = none → alookup p w.remote = some c →
      cache.download_to_local p w =
        (.ok GCPFileCache.SUCCESS_STATUS,
         { w with localFs := aset (cache.get_local_path p) c w.localFs },
         [.netExists p, .netDownload p (cache.get_local_path p)]) ∧
      cache.download_to_local p
          { w with localFs := aset (cache.get_local_path p) c w.localFs } =
        (.ok GCPFileCache.SKIP_STATUS,
         { w with localFs := aset (cache.get_local_path p) c w.localFs }, []) ∧
      alookup (cache.get_local_path p) (aset (cache.get_local_path p) c w.localFs) = some c) := by
  constructor
  · intro h
    simp [GCPFileCache.download_to_local, h]
  · intro c h hr
    refine ⟨?_, ?_, alookup_aset_self _ _ _⟩
    · simp [GCPFileCache.download_to_local, GCPClient.download_file, GCPClient.file_exists,
        h, hr, alookup_aset_self]
    · simp [GCPFileCache.download_to_local, alookup_aset_self]

/-- C3, witness: downloading `gs://b/f` twice into an empty mirror yields
`"SUCCESS"` then `"SKIP"`, and the mirror file holds the remote content
after both calls. -/
theorem c3_download_idempotent_witness :
    (GCPFileCache.mk ⟨true, ["c"]⟩).download_to_local ⟨"b", "f"⟩ ⟨[(⟨"b", "f"⟩, 9)], []⟩ =
      (.ok GCPFileCache.SUCCESS_STATUS,
       ⟨[(⟨"b", "f"⟩, 9)], [(⟨true, ["c", "b", "f"]⟩, 9)]⟩,
       [.netExists ⟨"b", "f"⟩, .netDownload ⟨"b", "f"⟩ ⟨true, ["c", "b", "f"]⟩]) ∧
    (GCPFileCache.mk ⟨true, ["c"]⟩).download_to_local ⟨"b", "f"⟩
        ⟨[(⟨"b", "f"⟩, 9)], [(⟨true, ["c", "b", "f"]⟩, 9)]⟩ =
      (.ok GCPFileCache.SKIP_STATUS,
       ⟨[(⟨"b", "f"⟩, 9)], [(⟨true, ["c", "b", "f"]⟩, 9)]⟩, []) ∧
    alookup (⟨true, ["c", "b", "f"]⟩ : LocalPath)
      (aset (⟨true, ["c", "b", "f"]⟩ : LocalPath) 9 []) = some 9 :=
  (c3_download_idempotent ⟨⟨true, ["c"]⟩⟩ ⟨"b", "f"⟩ ⟨[(⟨"b", "f"⟩, 9)], []⟩).2 9
    (by decide) (by decide)

/-! Claim C2 — batch download policy. -/

lemma download_to_local_localFs_mono (cache : GCPFileCache) (p : GCPPath) (w : World)
    (l : LocalPath) (h : (alookup l w.localFs).isSome = true) :
    (alookup l (cache.download_to_local p w).2.1.localFs).isSome = true := by
  unfold GCPFileCache.download_to_local GCPClient.download_file GCPClient.file_exists
  by_cases hs : (alookup (cache.get_local_path p) w.localFs).isSome = true
  · simpa [hs]
  · simp only [hs, if_false, Bool.false_eq_true]
    by_cases hr : (alookup p w.remote).isSome = true
    · simp [hr, alookup_aset_self, alookup_aset_isSome_mono _ _ _ _ h]
    · simp [hr, h]

lemma runDownloadTasks_localFs_mono (cache : GCPFileCache) (paths : List GCPPath) :
    ∀ (w : World) (l : LocalPath), (alookup l w.localFs).isSome = true →
      (alookup l (cache.runDownloadTasks paths w).1.localFs).isSome = true := by
  induction paths with
  | nil => intro w l h; exact h
  | cons p rest ih =>
    intro w l h
    have h1 := download_to_local_localFs_mono cache p w l h
    simpa [GCPFileCache.runDownloadTasks] using
      ih (cache.download_to_local p w).2.1 l h1

lemma download_to_local_ok_present (cache : GCPFileCache) (p : GCPPath) (w : World)
    (s : String) (h : (cache.download_to_local p w).1 = .ok s) :
    (alookup (cache.get_local_path p) (cache.download_to_local p w).2.1.localFs).isSome
      = true := by
  unfold GCPFileCache.download_to_local GCPClient.download_file GCPClient.file_exists at *
  by_cases hs : (alookup (cache.get_local_path p) w.localFs).isSome = true
  · simp [hs]
  · simp only [hs, if_false, Bool.false_eq_true] at *
    by_cases hr : (alookup p w.remote).isSome = true
    · simp [hr, alookup_aset_self]
    · simp [hr] at h

lemma firstFailure_of_mem (outcomes : List (GCPPath × Except Err String))
    (pr : GCPPath × Except Err String) (hm : pr ∈ outcomes) (he : pr.2.isOk = false) :
    ∃ e, firstFailure outcomes = some e := by
  induction outcomes with
  | nil => simp at hm
  | cons o rest ih =>
    obtain ⟨q, r⟩ := o
    cases r with
    | error e => exact ⟨e, rfl⟩
    | ok s =>
      rcases List.mem_cons.mp hm with rfl | hm'
      · simp [Except.isOk, Except.toBool] at he
      · exact ih hm'

/-- C2: the batch download submits one task per path — the collected
outcomes list is in one-to-one correspondence with the path list — and:
if any task's outcome is a failure, the overall call returns the
aggregating `ValueError` (while still having run every task, the final
world being the one after all tasks); and every path whose task succeeded
(`"SKIP"` or `"SUCCESS"`) has its mirror file present in the final world —
nothing already transferred is undone. -/
theorem c2_batch_download (cache : GCPFileCache) (w : World) (paths : List GCPPath) :
    ((cache.runDownloadTasks paths w).2.1.map Prod.fst = paths) ∧
    (∀ pr ∈ (cache.runDownloadTasks paths w).2.1, pr.2.isOk = false →
      ∃ e, cache.multiple_download_to_local paths w =
        (.error (.batchError e), (cache.runDownloadTasks paths w).1,
         (cache.runDownloadTasks paths w).2.2)) ∧
    (∀ pr ∈ (cache.runDownloadTasks paths w).2.1, ∀ s, pr.2 = .ok s →
      (alookup (cache.get_local_path pr.1)
        (cache.runDownloadTasks paths w).1.localFs).isSome = true) := by
  refine ⟨?_, ?_, ?_⟩
  · induction paths generalizing w with
    | nil => simp [GCPFileCache.runDownloadTasks]
    | cons p rest ih => simp [GCPFileCache.runDownloadTasks, ih]
  · intro pr hm he
    obtain ⟨e, hfe⟩ := firstFailure_of_mem _ pr hm he
    refine ⟨e, ?_⟩
    unfold GCPFileCache.multiple_download_to_local
    rcases hEq : cache.runDownloadTasks paths w with ⟨w', out, t⟩
    rw [hEq] at hfe
    simp only [hEq] at hfe ⊢
    rw [hfe]
  · induction paths generalizing w with
    | nil => intro pr hm; simp [GCPFileCache.runDownloadTasks] at hm
    | cons p rest ih =>
      intro pr hm s hs
      simp only [GCPFileCache.runDownloadTasks] at hm ⊢
      rcases List.mem_cons.mp hm with heq | hm'
      · subst heq
        exact runDownloadTasks_localFs_mono cache rest _ _
          (download_to_local_ok_present cache p w s hs)
      · exact ih (cache.download_to_local p w).2.1 pr hm' s hs

/-- C2, witness: three downloads where the second path does not exist
remotely — every task is submitted and runs, the call raises the
aggregating error, and the first and third files remain on disk. -/
theorem c2_batch_download_witness :
    (((GCPFileCache.mk ⟨true, ["c"]⟩).runDownloadTasks [⟨"b", "f1"⟩, ⟨"b", "f2"⟩, ⟨"b", "f3"⟩]
        ⟨[(⟨"b", "f1"⟩, 1), (⟨"b", "f3"⟩, 3)], []⟩).2.1.map Prod.fst =
      [⟨"b", "f1"⟩, ⟨"b", "f2"⟩, ⟨"b", "f3"⟩]) ∧
    (∃ e, (GCPFileCache.mk ⟨true, ["c"]⟩).multiple_download_to_local
        [⟨"b", "f1"⟩, ⟨"b", "f2"⟩, ⟨"b", "f3"⟩] ⟨[(⟨"b", "f1"⟩, 1), (⟨"b", "f3"⟩, 3)], []⟩ =
      (.error (.batchError e),
       ((GCPFileCache.mk ⟨true, ["c"]⟩).runDownloadTasks [⟨"b", "f1"⟩, ⟨"b", "f2"⟩, ⟨"b", "f3"⟩]
         ⟨[(⟨"b", "f1"⟩, 1), (⟨"b", "f3"⟩, 3)], []⟩).1,
       ((GCPFileCache.mk ⟨true, ["c"]⟩).runDownloadTasks [⟨"b", "f1"⟩, ⟨"b", "f2"⟩, ⟨"b", "f3"⟩]
         ⟨[(⟨"b", "f1"⟩, 1), (⟨"b", "f3"⟩, 3)], []⟩).2.2)) ∧
    ((alookup ((GCPFileCache.mk ⟨true, ["c"]⟩).get_local_path ⟨"b", "f1"⟩)
        ((GCPFileCache.mk ⟨true, ["c"]⟩).runDownloadTasks [⟨"b", "f1"⟩, ⟨"b", "f2"⟩, ⟨"b", "f3"⟩]
          ⟨[(⟨"b", "f1"⟩, 1), (⟨"b", "f3"⟩, 3)], []⟩).1.localFs).isSome = true) ∧
    ((alookup ((GCPFileCache.mk ⟨true, ["c"]⟩).get_local_path ⟨"b", "f3"⟩)
        ((GCPFileCache.mk ⟨true, ["c"]⟩).runDownloadTasks [⟨"b", "f1"⟩, ⟨"b", "f2"⟩, ⟨"b", "f3"⟩]
          ⟨[(⟨"b", "f1"⟩, 1), (⟨"b", "f3"⟩, 3)], []⟩).1.localFs).isSome = true) :=
  ⟨(c2_batch_download ⟨⟨true, ["c"]⟩⟩ ⟨[(⟨"b", "f1"⟩, 1), (⟨"b", "f3"⟩, 3)], []⟩
      [⟨"b", "f1"⟩, ⟨"b", "f2"⟩, ⟨"b", "f3"⟩]).1,
   (c2_batch_download ⟨⟨true, ["c"]⟩⟩ ⟨[(⟨"b", "f1"⟩, 1), (⟨"b", "f3"⟩, 3)], []⟩
      [⟨"b", "f1"⟩, ⟨"b", "f2"⟩, ⟨"b", "f3"⟩]).2.1
     (⟨"b", "f2"⟩, .error (.remoteFileMissing ⟨"b", "f2"⟩)) (by decide) (by decide),
   (c2_batch_download ⟨⟨true, ["c"]⟩⟩ ⟨[(⟨"b", "f1"⟩, 1), (⟨"b", "f3"⟩, 3)], []⟩
      [⟨"b", "f1"⟩, ⟨"b", "f2"⟩, ⟨"b", "f3"⟩]).2.2
     (⟨"b", "f1"⟩, .ok GCPFileCache.SUCCESS_STATUS) (by decide) GCPFileCache.SUCCESS_STATUS rfl,
   (c2_batch_download ⟨⟨true, ["c"]⟩⟩ ⟨[(⟨"b", "f1"⟩, 1), (⟨"b", "f3"⟩, 3)], []⟩
      [⟨"b", "f1"⟩, ⟨"b", "f2"⟩, ⟨"b", "f3"⟩]).2.2
     (⟨"b", "f3"⟩, .ok GCPFileCache.SUCCESS_STATUS) (by decide) GCPFileCache.SUCCESS_STATUS rfl⟩

/-! Claim C5 — idempotent job skip. -/

/-- C5: for both modelled job kinds, when the declared output object
already exists remotely, `execute` returns successfully right after the
single output-existence check: the world is unchanged (no input touched)
and the trace is exactly that one read — zero glob discovery, zero
directory listing, zero downloads, zero tool invocations. -/
theorem c5_skip_when_output_exists (sp : ServiceProvider) (j : Job) (w : World)
    (h : (alookup j.output_path w.remote).isSome = true) :
    j.execute sp w = (.ok (), w, [.netExists j.output_path]) := by
  cases j with
  | dnaAlign job =>
    have h' : (alookup job.output_path w.remote).isSome = true := h
    show job.execute sp w = _
    simp [DnaAlignJob.execute, GCPClient.file_exists, h']
    rfl
  | umiDedup job =>
    have h' : (alookup job.output_path w.remote).isSome = true := h
    show job.execute sp w = _
    simp [UmiDedupJob.execute, GCPClient.file_exists, h']
    rfl

/-- C5, witness: both job kinds skipped on a world already holding their
declared outputs. -/
theorem c5_skip_when_output_exists_witness :
    (Job.dnaAlign ⟨⟨"b", "in*.fastq.gz"⟩, ⟨"b", "ref/r.fasta"⟩, ⟨"b", "out.bam"⟩⟩).execute
        ⟨⟨⟨true, ["c"]⟩⟩, ⟨⟨true, ["w"]⟩⟩⟩ ⟨[(⟨"b", "out.bam"⟩, 1)], []⟩ =
      (.ok (), ⟨[(⟨"b", "out.bam"⟩, 1)], []⟩, [.netExists ⟨"b", "out.bam"⟩]) ∧
    (Job.umiDedup ⟨⟨"b", "in.bam"⟩, ⟨"b", "out.bam"⟩⟩).execute
        ⟨⟨⟨true, ["c"]⟩⟩, ⟨⟨true, ["w"]⟩⟩⟩ ⟨[(⟨"b", "out.bam"⟩, 1)], []⟩ =
      (.ok (), ⟨[(⟨"b", "out.bam"⟩, 1)], []⟩, [.netExists ⟨"b", "out.bam"⟩]) :=
  ⟨c5_skip_when_output_exists ⟨⟨⟨true, ["c"]⟩⟩, ⟨⟨true, ["w"]⟩⟩⟩
     (Job.dnaAlign ⟨⟨"b", "in*.fastq.gz"⟩, ⟨"b", "ref/r.fasta"⟩, ⟨"b", "out.bam"⟩⟩)
     ⟨[(⟨"b", "out.bam"⟩, 1)], []⟩ (by decide),
   c5_skip_when_output_exists ⟨⟨⟨true, ["c"]⟩⟩, ⟨⟨true, ["w"]⟩⟩⟩
     (Job.umiDedup ⟨⟨"b", "in.bam"⟩, ⟨"b", "out.bam"⟩⟩)
     ⟨[(⟨"b", "out.bam"⟩, 1)], []⟩ (by decide)⟩

/-! Claim C6 — error handling in the job runner. -/

/-- Fixture for the runner claims: a umi-dedup job whose input is missing
remotely (its download batch raises), and one whose input and index are
present (it runs through). -/
def runnerSP : ServiceProvider := ⟨⟨⟨true, ["cache"]⟩⟩, ⟨⟨true, ["work"]⟩⟩⟩

def runnerFailJob : Job := .umiDedup ⟨⟨"b", "in1.bam"⟩, ⟨"b", "out1.bam"⟩⟩

def runnerOkJob : Job := .umiDedup ⟨⟨"b", "in2.bam"⟩, ⟨"b", "out2.bam"⟩⟩

def runnerWorld : World := ⟨[(⟨"b", "in2.bam"⟩, 1), (⟨"b", "in2.bam.bai"⟩, 2)], []⟩

set_option maxRecDepth 10000

/-- C6, counterexample: the loop in `main` has no exception handler, so a
queue of two jobs where the first raises aborts immediately: the run
returns the first job's error, the trace holds no effect of the second
job (its output-existence check never happens), even though the second
job run by itself succeeds and does perform that check. -/
theorem c6_runner_counterexample :
    runQueuedJobs runnerSP [runnerFailJob, runnerOkJob] runnerWorld =
      (.error (.batchError (.remoteFileMissing ⟨"b", "in1.bam"⟩)), runnerWorld,
       [.netExists ⟨"b", "out1.bam"⟩, .netExists ⟨"b", "in1.bam"⟩,
        .netExists ⟨"b", "in1.bam.bai"⟩]) ∧
    Effect.netExists ⟨"b", "out2.bam"⟩ ∉
      (runQueuedJobs runnerSP [runnerFailJob, runnerOkJob] runnerWorld).2.2 ∧
    (runQueuedJobs runnerSP [runnerOkJob] runnerWorld).1 = .ok () ∧
    Effect.netExists ⟨"b", "out2.bam"⟩ ∈
      (runQueuedJobs runnerSP [runnerOkJob] runnerWorld).2.2 := by decide

/-- C6, amended: the job runner provides no job-level isolation — the loop
body is not wrapped in any handler, so when a job's `execute` raises, the
error propagates out of the runner at once and the remaining queued jobs
are not executed at all. -/
theorem c6_runner_aborts_amended (sp : ServiceProvider) (w : World) (j : Job)
    (rest : List Job) (e : Err) (w' : World) (t : List Effect)
    (h : j.execute sp w = (.error e, w', t)) :
    runQueuedJobs sp (j :: rest) w = (.error e, w', t) := by
  unfold runQueuedJobs
  rw [h]

/-- C6, witness: the amended propagation law applied to the two-job queue
of the counterexample fixture. -/
theorem c6_runner_aborts_witness :
    runQueuedJobs runnerSP [runnerFailJob, runnerOkJob] runnerWorld =
      (.error (.batchError (.remoteFileMissing ⟨"b", "in1.bam"⟩)), runnerWorld,
       [.netExists ⟨"b", "out1.bam"⟩, .netExists ⟨"b", "in1.bam"⟩,
        .netExists ⟨"b", "in1.bam.bai"⟩]) :=
  c6_runner_aborts_amended runnerSP runnerWorld runnerFailJob [runnerOkJob]
    (.batchError (.remoteFileMissing ⟨"b", "in1.bam"⟩)) runnerWorld
    [.netExists ⟨"b", "out1.bam"⟩, .netExists ⟨"b", "in1.bam"⟩,
     .netExists ⟨"b", "in1.bam.bai"⟩] (by decide)

/-! Further association-list lemmas, for the pair-matcher claims. -/

lemma mem_akeys_aset {α β : Type} [DecidableEq α] (k a : α) (v : β) (m : List (α × β)) :
    a ∈ akeys (aset k v m) ↔ a = k ∨ a ∈ akeys m := by
  induction m with
  | nil => simp [aset, akeys]
  | cons e rest ih =>
    obtain ⟨x, y⟩ := e
    simp only [aset]
    by_cases hx : x = k
    · subst hx
      rw [if_pos rfl]
      simp only [akeys, List.map_cons, List.mem_cons]
      tauto
    · rw [if_neg hx]
      simp only [akeys, List.map_cons, List.mem_cons]
      simp only [akeys] at ih
      rw [ih]
      tauto

lemma nodup_akeys_aset {α β : Type} [DecidableEq α] (k : α) (v : β) (m : List (α × β))
    (h : (akeys m).Nodup) : (akeys (aset k v m)).Nodup := by
  induction m with
  | nil => simp [aset, akeys]
  | cons e rest ih =>
    obtain ⟨x, y⟩ := e
    simp only [akeys, List.map_cons, List.nodup_cons] at h
    simp only [aset]
    by_cases hx : x = k
    · subst hx
      rw [if_pos rfl]
      simp only [akeys, List.map_cons, List.nodup_cons]
      exact h
    · have hrest := ih h.2
      have hx' : x ∉ akeys (aset k v rest) := by
        rw [mem_akeys_aset]
        rintro (rfl | hm)
        · exact hx rfl
        · exact h.1 hm
      rw [if_neg hx]
      simp only [akeys, List.map_cons, List.nodup_cons]
      simp only [akeys] at hx' hrest
      exact ⟨hx', hrest⟩

lemma alookup_some_of_mem_nodup {α β : Type} [DecidableEq α] {k : α} {v : β}
    {m : List (α × β)} (hnd : (akeys m).Nodup) (hm : (k, v) ∈ m) :
    alookup k m = some v := by
  induction m with
  | nil => simp at hm
  | cons e rest ih =>
    obtain ⟨x, y⟩ := e
    simp only [akeys, List.map_cons, List.nodup_cons] at hnd
    rcases List.mem_cons.mp hm with heq | hm'
    · obtain ⟨rfl, rfl⟩ := Prod.mk.inj heq
      simp [alookup]
    · have hk : k ∈ akeys rest := List.mem_map_of_mem Prod.fst hm'
      have hx : ¬ x = k := fun hh => hnd.1 (hh ▸ hk)
      simp [alookup, hx, ih hnd.2 hm']

lemma alookup_isSome_of_mem_akeys {α β : Type} [DecidableEq α] {k : α}
    {m : List (α × β)} (h : k ∈ akeys m) : (alookup k m).isSome = true := by
  induction m with
  | nil => simp [akeys] at h
  | cons e rest ih =>
    obtain ⟨x, y⟩ := e
    by_cases hx : x = k
    · simp [alookup, hx]
    · simp only [akeys, List.map_cons, List.mem_cons] at h
      rcases h with rfl | hm
      · exact absurd rfl hx
      · simp [alookup, hx, ih hm]

lemma mem_of_mem_nodup_lookup {α β : Type} [DecidableEq α] {k : α} {v : β}
    {m : List (α × β)} (h : alookup k m = some v) : (k, v) ∈ m := by
  induction m with
  | nil => simp [alookup] at h
  | cons e rest ih =>
    obtain ⟨x, y⟩ := e
    by_cases hx : x = k
    · subst hx
      simp [alookup] at h
      subst h
      exact List.mem_cons_self _ _
    · simp only [alookup, if_neg hx] at h
      exact List.mem_cons_of_mem _ (ih h)

/-! Order lemmas for the sort comparison. -/

lemma charListLt_trans : ∀ as bs cs : List Char, charListLt as bs = true →
    charListLt bs cs = true → charListLt as cs = true := by
  intro as
  induction as with
  | nil =>
    intro bs cs hab hbc
    cases bs with
    | nil => simp [charListLt] at hab
    | cons b bs' =>
      cases cs with
      | nil => simp [charListLt] at hbc
      | cons c cs' => simp [charListLt]
  | cons a as' ih =>
    intro bs cs hab hbc
    cases bs with
    | nil => simp [charListLt] at hab
    | cons b bs' =>
      cases cs with
      | nil => simp [charListLt] at hbc
      | cons c cs' =>
        unfold charListLt at hab hbc ⊢
        by_cases h1 : a < b
        · by_cases h2 : b < c
          · simp [lt_trans h1 h2]
          · by_cases h3 : c < b
            · simp [h2, h3] at hbc
            · have hbc' : b = c := le_antisymm (not_lt.mp h3) (not_lt.mp h2)
              simp [hbc' ▸ h1]
        · by_cases h1' : b < a
          · simp [h1, h1'] at hab
          · have hab' : a = b := le_antisymm (not_lt.mp h1') (not_lt.mp h1)
            subst hab'
            by_cases h2 : a < c
            · simp [h2]
            · by_cases h3 : c < a
              · simp [h2, h3] at hbc
              · simp only [if_neg h1, if_neg h1'] at hab
                simp only [if_neg h2, if_neg h3] at hbc ⊢
                exact ih bs' cs' hab hbc

lemma charListLt_asymm : ∀ as bs : List Char, charListLt as bs = true →
    charListLt bs as = false := by
  intro as
  induction as with
  | nil =>
    intro bs hab
    cases bs with
    | nil => simp [charListLt] at hab
    | cons b bs' => simp [charListLt]
  | cons a as' ih =>
    intro bs hab
    cases bs with
    | nil => simp [charListLt] at hab
    | cons b bs' =>
      unfold charListLt at hab ⊢
      by_cases h1 : a < b
      · simp [lt_asymm h1, h1]
      · by_cases h2 : b < a
        · simp [h1, h2] at hab
        · simp only [if_neg h1, if_neg h2] at hab ⊢
          exact ih bs' hab

lemma charListLt_connex : ∀ as bs : List Char, as ≠ bs →
    (charListLt as bs = true ∨ charListLt bs as = true) := by
  intro as
  induction as with
  | nil =>
    intro bs hne
    cases bs with
    | nil => exact absurd rfl hne
    | cons b bs' => left; simp [charListLt]
  | cons a as' ih =>
    intro bs hne
    cases bs with
    | nil => right; simp [charListLt]
    | cons b bs' =>
      unfold charListLt
      by_cases h1 : a < b
      · left; simp [h1]
      · by_cases h2 : b < a
        · right; simp [h2, lt_asymm h2]
        · have hab : a = b := le_antisymm (not_lt.mp h2) (not_lt.mp h1)
          subst hab
          have hne' : as' ≠ bs' := fun hh => hne (hh ▸ rfl)
          rcases ih bs' hne' with h | h
          · left; simp [h1, h]
          · right; simp [h1, h]

lemma strLtB_trans {a b c : String} (h1 : strLtB a b = true) (h2 : strLtB b c = true) :
    strLtB a c = true := charListLt_trans _ _ _ h1 h2

lemma strLtB_asymm {a b : String} (h : strLtB a b = true) : strLtB b a = false :=
  charListLt_asymm _ _ h

lemma strLtB_connex {a b : String} (h : a ≠ b) :
    strLtB a b = true ∨ strLtB b a = true :=
  charListLt_connex _ _ (fun hd => h (String.ext hd))

lemma lexLt_trans {α β : Type} [DecidableEq α] {la : α → α → Bool} {lb : β → β → Bool}
    (hla : ∀ a b c, la a b = true → la b c = true → la a c = true)
    (hlb : ∀ a b c, lb a b = true → lb b c = true → lb a c = true) :
    ∀ x y z, lexLt la lb x y = true → lexLt la lb y z = true → lexLt la lb x z = true := by
  intro x y z hxy hyz
  simp only [lexLt, Bool.or_eq_true, Bool.and_eq_true, decide_eq_true_eq] at hxy hyz ⊢
  rcases hxy with h1 | ⟨he1, h1⟩
  · rcases hyz with h2 | ⟨he2, h2⟩
    · exact Or.inl (hla _ _ _ h1 h2)
    · exact Or.inl (he2 ▸ h1)
  · rcases hyz with h2 | ⟨he2, h2⟩
    · exact Or.inl (he1 ▸ h2)
    · exact Or.inr ⟨he1.trans he2, hlb _ _ _ h1 h2⟩

lemma lexLt_asymm {α β : Type} [DecidableEq α] {la : α → α → Bool} {lb : β → β → Bool}
    (hla : ∀ a b, la a b = true → la b a = false)
    (hlb : ∀ a b, lb a b = true → lb b a = false) :
    ∀ x y, lexLt la lb x y = true → lexLt la lb y x = false := by
  intro x y hxy
  simp only [lexLt, Bool.or_eq_true, Bool.and_eq_true, decide_eq_true_eq] at hxy
  apply Bool.eq_false_iff.mpr
  intro hyx
  simp only [lexLt, Bool.or_eq_true, Bool.and_eq_true, decide_eq_true_eq] at hyx
  rcases hxy with h1 | ⟨he1, h1⟩
  · rcases hyx with h2 | ⟨he2, h2⟩
    · exact absurd h2 (Bool.eq_false_iff.mp (hla _ _ h1) ∘ id)
    · rw [he2] at h1
      exact absurd h1 (Bool.eq_false_iff.mp (hla _ _ (he2 ▸ h1)))
  · rcases hyx with h2 | ⟨he2, h2⟩
    · rw [he1] at h2
      exact absurd h2 (Bool.eq_false_iff.mp (hla _ _ h2))
    · exact absurd h2 (Bool.eq_false_iff.mp (hlb _ _ h1))

lemma lexLt_connex {α β : Type} [DecidableEq α] {la : α → α → Bool} {lb : β → β → Bool}
    (hla : ∀ a b, a ≠ b → la a b = true ∨ la b a = true)
    (hlb : ∀ a b, a ≠ b → lb a b = true ∨ lb b a = true) :
    ∀ x y : α × β, x ≠ y → lexLt la lb x y = true ∨ lexLt la lb y x = true := by
  intro x y hne
  by_cases h1 : x.1 = y.1
  · have h2 : x.2 ≠ y.2 := by
      intro hh
      exact hne (Prod.ext h1 hh)
    rcases hlb _ _ h2 with h | h
    · left; simp [lexLt, h1, h]
    · right; simp [lexLt, h1.symm, h]
  · rcases hla _ _ h1 with h | h
    · left; simp [lexLt, h]
    · right; simp [lexLt, h]

lemma keyLt_trans : ∀ x y z, keyLt x y = true → keyLt y z = true → keyLt x z = true :=
  lexLt_trans (fun _ _ _ => strLtB_trans)
    (lexLt_trans (fun _ _ _ => strLtB_trans)
      (lexLt_trans (fun _ _ _ => strLtB_trans)
        (lexLt_trans (fun _ _ _ => strLtB_trans) (fun _ _ _ => strLtB_trans))))

lemma keyLt_asymm : ∀ x y, keyLt x y = true → keyLt y x = false :=
  lexLt_asymm (fun _ _ => strLtB_asymm)
    (lexLt_asymm (fun _ _ => strLtB_asymm)
      (lexLt_asymm (fun _ _ => strLtB_asymm)
        (lexLt_asymm (fun _ _ => strLtB_asymm) (fun _ _ => strLtB_asymm))))

lemma keyLt_connex : ∀ x y, x ≠ y → keyLt x y = true ∨ keyLt y x = true :=
  lexLt_connex (fun _ _ => strLtB_connex)
    (lexLt_connex (fun _ _ => strLtB_connex)
      (lexLt_connex (fun _ _ => strLtB_connex)
        (lexLt_connex (fun _ _ => strLtB_connex) (fun _ _ => strLtB_connex))))

lemma pairKey_inj {a b : GCPFastqPair} (h : pairKey a = pairKey b) : a = b := by
  cases a with
  | mk n1 r1 s1 =>
    cases b with
    | mk n2 r2 s2 =>
      cases r1; cases r2; cases s1; cases s2
      simp only [pairKey, Prod.mk.injEq] at h
      simp_all

lemma pairLe_iff {a b : GCPFastqPair} :
    pairLe a b ↔ keyLt (pairKey a) (pairKey b) = true ∨ pairKey a = pairKey b := by
  simp [pairLe, pairLeB, Bool.or_eq_true, decide_eq_true_eq]

instance : IsTrans GCPFastqPair pairLe := by
  constructor
  intro a b c hab hbc
  rw [pairLe_iff] at *
  rcases hab with h1 | h1
  · rcases hbc with h2 | h2
    · exact Or.inl (keyLt_trans _ _ _ h1 h2)
    · exact Or.inl (h2 ▸ h1)
  · rcases hbc with h2 | h2
    · exact Or.inl (h1 ▸ h2)
    · exact Or.inr (h1.trans h2)

instance : IsTotal GCPFastqPair pairLe := by
  constructor
  intro a b
  by_cases h : pairKey a = pairKey b
  · exact Or.inl (pairLe_iff.mpr (Or.inr h))
  · rcases keyLt_connex _ _ h with h' | h'
    · exact Or.inl (pairLe_iff.mpr (Or.inl h'))
    · exact Or.inr (pairLe_iff.mpr (Or.inl h'))

instance : IsAntisymm GCPFastqPair pairLe := by
  constructor
  intro a b hab hba
  rw [pairLe_iff] at *
  rcases hab with h1 | h1
  · rcases hba with h2 | h2
    · exact absurd h2 (by simp [keyLt_asymm _ _ h1])
    · exact absurd (h2 ▸ h1) (by simp [Bool.eq_false_iff.mp (keyLt_asymm _ _ (h2 ▸ h1))])
  · exact pairKey_inj h1

/-! Equivalence of pair-name maps, for reasoning about duplicate keys. -/

/-- Two maps that are indistinguishable to `joinPairs`: same lookups and
the same key set. -/
def mapEquiv (m m' : List (String × GCPPath)) : Prop :=
  (∀ k, alookup k m = alookup k m') ∧ (∀ k, k ∈ akeys m ↔ k ∈ akeys m')

/-- The state after inserting an extra binding of key `n` that a later
insertion of `n` will overwrite: lookups agree off `n`, and the key sets
agree up to `n`. -/
def partialEquiv (n : String) (m m' : List (String × GCPPath)) : Prop :=
  (∀ k, k ≠ n → alookup k m = alookup k m') ∧
  (∀ k, k ∈ akeys m ↔ k = n ∨ k ∈ akeys m')

lemma mapEquiv_refl (m : List (String × GCPPath)) : mapEquiv m m :=
  ⟨fun _ => rfl, fun _ => Iff.rfl⟩

lemma mapEquiv_aset {m m' : List (String × GCPPath)} (h : mapEquiv m m')
    (k : String) (v : GCPPath) : mapEquiv (aset k v m) (aset k v m') := by
  constructor
  · intro k'
    by_cases hk : k' = k
    · subst hk; rw [alookup_aset_self, alookup_aset_self]
    · rw [alookup_aset_ne _ _ hk, alookup_aset_ne _ _ hk]; exact h.1 k'
  · intro k'
    rw [mem_akeys_aset, mem_akeys_aset, h.2 k']

lemma partialEquiv_aset_self (n : String) (p : GCPPath) (m : List (String × GCPPath)) :
    partialEquiv n (aset n p m) m :=
  ⟨fun _ hk => alookup_aset_ne _ _ hk, fun k => mem_akeys_aset n k p m⟩

lemma partialEquiv_step {n : String} {m m' : List (String × GCPPath)}
    (h : partialEquiv n m m') (k : String) (v : GCPPath) :
    partialEquiv n (aset k v m) (aset k v m') := by
  constructor
  · intro k' hk'
    by_cases hk : k' = k
    · subst hk; rw [alookup_aset_self, alookup_aset_self]
    · rw [alookup_aset_ne _ _ hk, alookup_aset_ne _ _ hk]; exact h.1 k' hk'
  · intro k'
    rw [mem_akeys_aset, mem_akeys_aset, h.2 k']
    tauto

lemma partialEquiv_close {n : String} {m m' : List (String × GCPPath)}
    (h : partialEquiv n m m') (q : GCPPath) : mapEquiv (aset n q m) (aset n q m') := by
  constructor
  · intro k
    by_cases hk : k = n
    · subst hk; rw [alookup_aset_self, alookup_aset_self]
    · rw [alookup_aset_ne _ _ hk, alookup_aset_ne _ _ hk]; exact h.1 k hk
  · intro k
    rw [mem_akeys_aset, mem_akeys_aset, h.2 k]
    tauto

/-- Outcome equivalence for the classification loop: identical errors, or
maps equivalent side by side. -/
def exceptMapsEquiv : Except Err (List (String × GCPPath) × List (String × GCPPath)) →
    Except Err (List (String × GCPPath) × List (String × GCPPath)) → Prop
  | .error e, .error e' => e = e'
  | .ok (a1, a2), .ok (b1, b2) => mapEquiv a1 b1 ∧ mapEquiv a2 b2
  | _, _ => False

lemma buildMaps_append (xs ys : List GCPPath) : ∀ m1 m2,
    buildMaps (xs ++ ys) m1 m2 =
      (match buildMaps xs m1 m2 with
       | .error e => .error e
       | .ok (a, b) => buildMaps ys a b) := by
  induction xs with
  | nil => intro m1 m2; rfl
  | cons p rest ih =>
    intro m1 m2
    show buildMaps (p :: (rest ++ ys)) m1 m2 = _
    simp only [buildMaps]
    cases hc : classifyB p with
    | none => rfl
    | some sk =>
      obtain ⟨s, k⟩ := sk
      cases s
      · exact ih m1 (aset k p m2)
      · exact ih (aset k p m1) m2

lemma buildMaps_congr_mapEquiv (l : List GCPPath) :
    ∀ m1A m2A m1B m2B, mapEquiv m1A m1B → mapEquiv m2A m2B →
      exceptMapsEquiv (buildMaps l m1A m2A) (buildMaps l m1B m2B) := by
  induction l with
  | nil => intro m1A m2A m1B m2B h1 h2; exact ⟨h1, h2⟩
  | cons p rest ih =>
    intro m1A m2A m1B m2B h1 h2
    simp only [buildMaps]
    cases hc : classifyB p with
    | none => rfl
    | some sk =>
      obtain ⟨s, k⟩ := sk
      cases s
      · exact ih _ _ _ _ h1 (mapEquiv_aset h2 k p)
      · exact ih _ _ _ _ (mapEquiv_aset h1 k p) h2

lemma buildMaps_congr_partial (q : GCPPath) (s : Bool) (n : String)
    (hq : classifyB q = some (s, n)) (l2 l3 : List GCPPath) :
    ∀ m1A m2A m1B m2B,
      (s = true → partialEquiv n m1A m1B ∧ m2A = m2B) →
      (s = false → m1A = m1B ∧ partialEquiv n m2A m2B) →
      exceptMapsEquiv (buildMaps (l2 ++ q :: l3) m1A m2A)
        (buildMaps (l2 ++ q :: l3) m1B m2B) := by
  induction l2 with
  | nil =>
    intro m1A m2A m1B m2B ht hf
    show exceptMapsEquiv (buildMaps (q :: l3) m1A m2A) (buildMaps (q :: l3) m1B m2B)
    simp only [buildMaps, hq]
    cases s
    · obtain ⟨he, hp⟩ := hf rfl
      subst he
      exact buildMaps_congr_mapEquiv l3 _ _ _ _ (mapEquiv_refl _) (partialEquiv_close hp q)
    · obtain ⟨hp, he⟩ := ht rfl
      subst he
      exact buildMaps_congr_mapEquiv l3 _ _ _ _ (partialEquiv_close hp q) (mapEquiv_refl _)
  | cons x l2' ih =>
    intro m1A m2A m1B m2B ht hf
    show exceptMapsEquiv (buildMaps (x :: (l2' ++ q :: l3)) m1A m2A) _
    simp only [buildMaps]
    cases hc : classifyB x with
    | none => rfl
    | some sk =>
      obtain ⟨s', k⟩ := sk
      cases s'
      · refine ih m1A (aset k x m2A) m1B (aset k x m2B) ?_ ?_
        · intro hs
          obtain ⟨hp, he⟩ := ht hs
          exact ⟨hp, he ▸ rfl⟩
        · intro hs
          obtain ⟨he, hp⟩ := hf hs
          exact ⟨he, partialEquiv_step hp k x⟩
      · refine ih (aset k x m1A) m2A (aset k x m1B) m2B ?_ ?_
        · intro hs
          obtain ⟨hp, he⟩ := ht hs
          exact ⟨partialEquiv_step hp k x, he⟩
        · intro hs
          obtain ⟨he, hp⟩ := hf hs
          exact ⟨he ▸ rfl, hp⟩

lemma buildMaps_ok_nodup (xs : List GCPPath) :
    ∀ m1 m2 m1' m2', buildMaps xs m1 m2 = .ok (m1', m2') →
      (akeys m1).Nodup → (akeys m2).Nodup → (akeys m1').Nodup ∧ (akeys m2').Nodup := by
  induction xs with
  | nil =>
    intro m1 m2 m1' m2' h h1 h2
    simp only [buildMaps, Except.ok.injEq, Prod.mk.injEq] at h
    obtain ⟨rfl, rfl⟩ := h
    exact ⟨h1, h2⟩
  | cons p rest ih =>
    intro m1 m2 m1' m2' h h1 h2
    simp only [buildMaps] at h
    cases hc : classifyB p with
    | none => rw [hc] at h; exact absurd h (by simp)
    | some sk =>
      obtain ⟨s, k⟩ := sk
      rw [hc] at h
      cases s
      · exact ih _ _ _ _ h h1 (nodup_akeys_aset k p m2 h2)
      · exact ih _ _ _ _ h (nodup_akeys_aset k p m1 h1) h2

lemma checkB_true_iff (m1 m2 : List (String × GCPPath)) :
    ((akeys m1).all (fun k => (akeys m2).contains k) &&
     (akeys m2).all (fun k => (akeys m1).contains k)) = true ↔
    (∀ k, k ∈ akeys m1 ↔ k ∈ akeys m2) := by
  rw [Bool.and_eq_true, List.all_eq_true, List.all_eq_true]
  constructor
  · rintro ⟨h1, h2⟩ k
    exact ⟨fun hk => List.elem_iff.mp (h1 k hk), fun hk => List.elem_iff.mp (h2 k hk)⟩
  · intro h
    exact ⟨fun k hk => List.elem_iff.mpr ((h k).mp hk),
           fun k hk => List.elem_iff.mpr ((h k).mpr hk)⟩

lemma pairLe_name_lt {a b : GCPFastqPair} (hle : pairLe a b)
    (hne : a.pair_name ≠ b.pair_name) : strLtB a.pair_name b.pair_name = true := by
  rw [pairLe_iff] at hle
  rcases hle with h | h
  · simp only [keyLt, lexLt, pairKey, Bool.or_eq_true, Bool.and_eq_true,
      decide_eq_true_eq] at h
    rcases h with h | ⟨he, _⟩
    · exact h
    · exact absurd he hne
  · exact absurd (congrArg (fun k => k.1) h) hne

lemma joinPairs_ok (m1 m2 : List (String × GCPPath)) (hnd1 : (akeys m1).Nodup)
    (hset : ∀ k, k ∈ akeys m1 ↔ k ∈ akeys m2) :
    ∃ l, joinPairs m1 m2 = .ok l ∧
      List.Pairwise (fun a b => strLtB a.pair_name b.pair_name = true) l ∧
      (∀ nm, nm ∈ l.map GCPFastqPair.pair_name ↔ nm ∈ akeys m1) ∧
      (∀ pr ∈ l, alookup pr.pair_name m1 = some pr.read1 ∧
        alookup pr.pair_name m2 = some pr.read2) := by
  have hcheck := (checkB_true_iff m1 m2).mpr hset
  set M := m1.map (fun kv => GCPFastqPair.mk kv.1 kv.2 ((alookup kv.1 m2).getD default))
    with hM
  refine ⟨List.insertionSort pairLe M, ?_, ?_, ?_, ?_⟩
  · unfold joinPairs
    rw [hcheck, hM]
    rfl
  · have hsorted : List.Sorted pairLe (List.insertionSort pairLe M) :=
      List.sorted_insertionSort pairLe M
    have hperm : (List.insertionSort pairLe M).Perm M := List.perm_insertionSort pairLe M
    have hnames_eq : M.map GCPFastqPair.pair_name = akeys m1 := by
      rw [hM, List.map_map]
      rfl
    have hnodupnames : ((List.insertionSort pairLe M).map GCPFastqPair.pair_name).Nodup := by
      rw [(hperm.map _).nodup_iff, hnames_eq]
      exact hnd1
    have hnepw : List.Pairwise (fun a b : GCPFastqPair => a.pair_name ≠ b.pair_name)
        (List.insertionSort pairLe M) := List.pairwise_map.mp hnodupnames
    exact (hsorted.and hnepw).imp (fun h => pairLe_name_lt h.1 h.2)
  · intro nm
    have hperm : (List.insertionSort pairLe M).Perm M := List.perm_insertionSort pairLe M
    have hnames_eq : M.map GCPFastqPair.pair_name = akeys m1 := by
      rw [hM, List.map_map]
      rfl
    rw [← hnames_eq]
    exact (hperm.map GCPFastqPair.pair_name).mem_iff
  · intro pr hpr
    have hperm : (List.insertionSort pairLe M).Perm M := List.perm_insertionSort pairLe M
    have hprM : pr ∈ M := hperm.mem_iff.mp hpr
    rw [hM] at hprM
    obtain ⟨⟨k, v⟩, hkv, rfl⟩ := List.mem_map.mp hprM
    refine ⟨alookup_some_of_mem_nodup hnd1 hkv, ?_⟩
    have hk1 : k ∈ akeys m1 := List.mem_map_of_mem Prod.fst hkv
    have hk2 : k ∈ akeys m2 := (hset k).mp hk1
    obtain ⟨r2, hr2⟩ := Option.isSome_iff_exists.mp (alookup_isSome_of_mem_akeys hk2)
    show alookup k m2 = some ((alookup k m2).getD default)
    rw [hr2]
    rfl

lemma joinPairs_congr {m1A m2A m1B m2B : List (String × GCPPath)} (h1 : mapEquiv m1A m1B)
    (h2 : mapEquiv m2A m2B) (hndA : (akeys m1A).Nodup) (hndB : (akeys m1B).Nodup) :
    joinPairs m1A m2A = joinPairs m1B m2B := by
  by_cases hA : ∀ k, k ∈ akeys m1A ↔ k ∈ akeys m2A
  · have hB : ∀ k, k ∈ akeys m1B ↔ k ∈ akeys m2B :=
      fun k => ((h1.2 k).symm.trans (hA k)).trans (h2.2 k)
    have hf : (fun kv : String × GCPPath =>
        GCPFastqPair.mk kv.1 kv.2 ((alookup kv.1 m2A).getD default)) =
        (fun kv : String × GCPPath =>
        GCPFastqPair.mk kv.1 kv.2 ((alookup kv.1 m2B).getD default)) := by
      funext kv
      rw [h2.1 kv.1]
    have hpairsperm : m1A.Perm m1B := by
      rw [List.perm_ext_iff_of_nodup (List.Nodup.of_map _ hndA) (List.Nodup.of_map _ hndB)]
      rintro ⟨k, v⟩
      constructor
      · intro hm
        exact mem_of_mem_nodup_lookup
          ((h1.1 k).symm.trans (alookup_some_of_mem_nodup hndA hm))
      · intro hm
        exact mem_of_mem_nodup_lookup ((h1.1 k).trans (alookup_some_of_mem_nodup hndB hm))
    have hsorteq : List.insertionSort pairLe
        (m1A.map (fun kv => GCPFastqPair.mk kv.1 kv.2 ((alookup kv.1 m2A).getD default))) =
        List.insertionSort pairLe
        (m1B.map (fun kv => GCPFastqPair.mk kv.1 kv.2 ((alookup kv.1 m2B).getD default))) := by
      apply List.eq_of_perm_of_sorted ?_ (List.sorted_insertionSort pairLe _)
        (List.sorted_insertionSort pairLe _)
      refine (List.perm_insertionSort pairLe _).trans
        (List.Perm.trans ?_ (List.perm_insertionSort pairLe _).symm)
      rw [hf]
      exact hpairsperm.map _
    unfold joinPairs
    rw [(checkB_true_iff _ _).mpr hA, (checkB_true_iff _ _).mpr hB, hsorteq]
  · have hB : ¬ ∀ k, k ∈ akeys m1B ↔ k ∈ akeys m2B :=
      fun hB => hA (fun k => ((h1.2 k).trans (hB k)).trans (h2.2 k).symm)
    unfold joinPairs
    rw [Bool.eq_false_iff.mpr (fun hh => hA ((checkB_true_iff _ _).mp hh)),
        Bool.eq_false_iff.mpr (fun hh => hB ((checkB_true_iff _ _).mp hh))]
    simp

/-! Claim C4 — the pair matcher against its reference algorithm. -/

/-- The valid marker configurations of §4.4: exactly one `_R1_` and no
`_R2_` in the filename, or exactly one `_R2_` and no `_R1_`. -/
def validMarkerCounts (p : GCPPath) : Prop :=
  (countOcc READ1_FASTQ_SUBSTRING (fileNameOf p).data = 1 ∧
   countOcc READ2_FASTQ_SUBSTRING (fileNameOf p).data = 0) ∨
  (countOcc READ1_FASTQ_SUBSTRING (fileNameOf p).data = 0 ∧
   countOcc READ2_FASTQ_SUBSTRING (fileNameOf p).data = 1)

instance (p : GCPPath) : Decidable (validMarkerCounts p) := by
  unfold validMarkerCounts
  infer_instance

lemma classifyB_eq_none_iff (p : GCPPath) : classifyB p = none ↔ ¬ validMarkerCounts p := by
  unfold classifyB validMarkerCounts
  dsimp only
  split_ifs with h1 h2 <;> simp <;> tauto

lemma buildMaps_error_of_invalid (paths : List GCPPath)
    (hex : ∃ p ∈ paths, classifyB p = none) : ∀ m1 m2,
    ∃ q ∈ paths, buildMaps paths m1 m2 = .error (.ambiguousReadMarker q) ∧
      classifyB q = none := by
  induction paths with
  | nil => obtain ⟨p, hp, _⟩ := hex; simp at hp
  | cons x rest ih =>
    intro m1 m2
    obtain ⟨p, hp, hpc⟩ := hex
    cases hc : classifyB x with
    | none => exact ⟨x, List.mem_cons_self _ _, by simp [buildMaps, hc], hc⟩
    | some sk =>
      have hpr : p ∈ rest := by
        rcases List.mem_cons.mp hp with rfl | h
        · rw [hc] at hpc; exact absurd hpc (by simp)
        · exact h
      obtain ⟨s, k⟩ := sk
      cases s
      · obtain ⟨q, hq, herr, hqc⟩ := ih ⟨p, hpr, hpc⟩ m1 (aset k x m2)
        exact ⟨q, List.mem_cons_of_mem _ hq, by simp [buildMaps, hc]; exact herr, hqc⟩
      · obtain ⟨q, hq, herr, hqc⟩ := ih ⟨p, hpr, hpc⟩ (aset k x m1) m2
        exact ⟨q, List.mem_cons_of_mem _ hq, by simp [buildMaps, hc]; exact herr, hqc⟩

/-- C4: every batch given to `pair_up_gcp_fastq_paths` is handled as the
reference algorithm of §4.4 prescribes.  (1) If any path's filename has an
invalid marker configuration, the whole call fails with the ambiguity
`ValueError`, naming such a path, regardless of the other filenames.
Otherwise the classification loop yields the two pair-name maps `m1`/`m2`
and: (2) if their key sets differ the call fails with the unbalanced-pairs
`ValueError`; (3) if they agree the call returns exactly one pair per
common pair name — the emitted pair names are strictly increasing (hence
sorted ascending and duplicate-free) and range over exactly the common
pair names, each pair holding that name's read-1 and read-2 entries. -/
theorem c4_pair_matching (paths : List GCPPath) :
    ((∃ p ∈ paths, ¬ validMarkerCounts p) →
      ∃ q ∈ paths, pair_up_gcp_fastq_paths paths = .error (.ambiguousReadMarker q) ∧
        ¬ validMarkerCounts q) ∧
    (∀ m1 m2, buildMaps paths [] [] = .ok (m1, m2) →
      (¬ (∀ k, k ∈ akeys m1 ↔ k ∈ akeys m2) →
        pair_up_gcp_fastq_paths paths = .error .unbalancedPairs) ∧
      ((∀ k, k ∈ akeys m1 ↔ k ∈ akeys m2) →
        ∃ l, pair_up_gcp_fastq_paths paths = .ok l ∧
          List.Pairwise (fun a b => strLtB a.pair_name b.pair_name = true) l ∧
          (∀ nm, nm ∈ l.map GCPFastqPair.pair_name ↔ nm ∈ akeys m1) ∧
          (∀ pr ∈ l, alookup pr.pair_name m1 = some pr.read1 ∧
            alookup pr.pair_name m2 = some pr.read2))) := by
  constructor
  · rintro ⟨p, hp, hpc⟩
    obtain ⟨q, hq, herr, hqc⟩ := buildMaps_error_of_invalid paths
      ⟨p, hp, (classifyB_eq_none_iff p).mpr hpc⟩ [] []
    refine ⟨q, hq, ?_, (classifyB_eq_none_iff q).mp hqc⟩
    unfold pair_up_gcp_fastq_paths
    rw [herr]
  · intro m1 m2 hok
    have hnd := buildMaps_ok_nodup paths [] [] m1 m2 hok (by simp [akeys]) (by simp [akeys])
    constructor
    · intro hset
      unfold pair_up_gcp_fastq_paths
      rw [hok]
      show joinPairs m1 m2 = _
      unfold joinPairs
      rw [Bool.eq_false_iff.mpr (fun hh => hset ((checkB_true_iff _ _).mp hh))]
      rfl
    · intro hset
      obtain ⟨l, hjp, hsort, hmem, hlook⟩ := joinPairs_ok m1 m2 hnd.1 hset
      refine ⟨l, ?_, hsort, hmem, hlook⟩
      unfold pair_up_gcp_fastq_paths
      rw [hok]
      exact hjp

/-- C4, witness: the three clauses at the §8 examples — a markerless
filename is ambiguous; `{A_R1_, A_R2_, B_R1_}` is unbalanced; and
`{A_R1_, A_R2_}` yields the single pair named `A_R?_`. -/
theorem c4_pair_matching_witness :
    (∃ q ∈ [(⟨"b", "X.fastq.gz"⟩ : GCPPath)],
      pair_up_gcp_fastq_paths [⟨"b", "X.fastq.gz"⟩] = .error (.ambiguousReadMarker q) ∧
        ¬ validMarkerCounts q) ∧
    pair_up_gcp_fastq_paths
      [⟨"b", "A_R1_.fastq.gz"⟩, ⟨"b", "A_R2_.fastq.gz"⟩, ⟨"b", "B_R1_.fastq.gz"⟩] =
      .error .unbalancedPairs ∧
    (∃ l, pair_up_gcp_fastq_paths [⟨"b", "A_R1_.fastq.gz"⟩, ⟨"b", "A_R2_.fastq.gz"⟩] =
        .ok l ∧
      List.Pairwise (fun a b => strLtB a.pair_name b.pair_name = true) l ∧
      (∀ nm, nm ∈ l.map GCPFastqPair.pair_name ↔
        nm ∈ akeys [("A_R?_", (⟨"b", "A_R1_.fastq.gz"⟩ : GCPPath))]) ∧
      (∀ pr ∈ l, alookup pr.pair_name [("A_R?_", (⟨"b", "A_R1_.fastq.gz"⟩ : GCPPath))] =
          some pr.read1 ∧
        alookup pr.pair_name [("A_R?_", (⟨"b", "A_R2_.fastq.gz"⟩ : GCPPath))] =
          some pr.read2)) :=
  ⟨(c4_pair_matching [⟨"b", "X.fastq.gz"⟩]).1
     ⟨⟨"b", "X.fastq.gz"⟩, by decide, by decide⟩,
   ((c4_pair_matching
       [⟨"b", "A_R1_.fastq.gz"⟩, ⟨"b", "A_R2_.fastq.gz"⟩, ⟨"b", "B_R1_.fastq.gz"⟩]).2
     [("A_R?_", ⟨"b", "A_R1_.fastq.gz"⟩), ("B_R?_", ⟨"b", "B_R1_.fastq.gz"⟩)]
     [("A_R?_", ⟨"b", "A_R2_.fastq.gz"⟩)] (by decide)).1
     (fun hall => absurd ((hall "B_R?_").mp (by decide)) (by decide)),
   ((c4_pair_matching [⟨"b", "A_R1_.fastq.gz"⟩, ⟨"b", "A_R2_.fastq.gz"⟩]).2
     [("A_R?_", ⟨"b", "A_R1_.fastq.gz"⟩)] [("A_R?_", ⟨"b", "A_R2_.fastq.gz"⟩)]
     (by decide)).2 (fun k => Iff.rfl)⟩

/-! Claim C10 — silent replacement on duplicate pair names. -/

/-- C10: when two distinct paths classify to the same read side with the
same derived pair name (for example identical filenames in different
directories), `pair_up_gcp_fastq_paths` behaves exactly as if the earlier
of the two had never been given: no error is raised on account of the
duplicate, the later path silently overwrites the earlier one in the
pair-name dictionary, and the earlier file is dropped from the returned
pairs without any failure being reported. -/
theorem c10_later_duplicate_replaces (l1 l2 l3 : List GCPPath) (p q : GCPPath)
    (s : Bool) (n : String) (hp : classifyB p = some (s, n))
    (hq : classifyB q = some (s, n)) (_hpq : p ≠ q) :
    pair_up_gcp_fastq_paths (l1 ++ (p :: (l2 ++ (q :: l3)))) =
      pair_up_gcp_fastq_paths (l1 ++ (l2 ++ (q :: l3))) := by
  unfold pair_up_gcp_fastq_paths
  rw [buildMaps_append l1 (p :: (l2 ++ (q :: l3))) [] [],
      buildMaps_append l1 (l2 ++ (q :: l3)) [] []]
  cases hb : buildMaps l1 [] [] with
  | error e => rfl
  | ok ab =>
    obtain ⟨m1, m2⟩ := ab
    show (match buildMaps (p :: (l2 ++ (q :: l3))) m1 m2 with
          | .error e => Except.error e
          | .ok (a, b) => joinPairs a b) =
         (match buildMaps (l2 ++ (q :: l3)) m1 m2 with
          | .error e => Except.error e
          | .ok (a, b) => joinPairs a b)
    have hnd0 := buildMaps_ok_nodup l1 [] [] m1 m2 hb (by simp [akeys]) (by simp [akeys])
    cases s
    · have hA : buildMaps (p :: (l2 ++ (q :: l3))) m1 m2 =
          buildMaps (l2 ++ (q :: l3)) m1 (aset n p m2) := by
        simp [buildMaps, hp]
      rw [hA]
      have hequiv := buildMaps_congr_partial q false n hq l2 l3 m1 (aset n p m2) m1 m2
        (by intro h; exact absurd h (by simp))
        (fun _ => ⟨rfl, partialEquiv_aset_self n p m2⟩)
      cases hrA : buildMaps (l2 ++ (q :: l3)) m1 (aset n p m2) with
      | error eA =>
        cases hrB : buildMaps (l2 ++ (q :: l3)) m1 m2 with
        | error eB =>
          rw [hrA, hrB] at hequiv
          have : eA = eB := hequiv
          rw [this]
        | ok abB =>
          rw [hrA, hrB] at hequiv
          obtain ⟨b1, b2⟩ := abB
          exact absurd hequiv (by simp [exceptMapsEquiv])
      | ok abA =>
        cases hrB : buildMaps (l2 ++ (q :: l3)) m1 m2 with
        | error eB =>
          rw [hrA, hrB] at hequiv
          obtain ⟨a1, a2⟩ := abA
          exact absurd hequiv (by simp [exceptMapsEquiv])
        | ok abB =>
          rw [hrA, hrB] at hequiv
          obtain ⟨a1, a2⟩ := abA
          obtain ⟨b1, b2⟩ := abB
          have heq : mapEquiv a1 b1 ∧ mapEquiv a2 b2 := hequiv
          have hndA := buildMaps_ok_nodup (l2 ++ (q :: l3)) m1 (aset n p m2) a1 a2 hrA
            hnd0.1 (nodup_akeys_aset _ _ _ hnd0.2)
          have hndB := buildMaps_ok_nodup (l2 ++ (q :: l3)) m1 m2 b1 b2 hrB hnd0.1 hnd0.2
          exact joinPairs_congr heq.1 heq.2 hndA.1 hndB.1
    · have hA : buildMaps (p :: (l2 ++ (q :: l3))) m1 m2 =
          buildMaps (l2 ++ (q :: l3)) (aset n p m1) m2 := by
        simp [buildMaps, hp]
      rw [hA]
      have hequiv := buildMaps_congr_partial q true n hq l2 l3 (aset n p m1) m2 m1 m2
        (fun _ => ⟨partialEquiv_aset_self n p m1, rfl⟩)
        (by intro h; exact absurd h (by simp))
      cases hrA : buildMaps (l2 ++ (q :: l3)) (aset n p m1) m2 with
      | error eA =>
        cases hrB : buildMaps (l2 ++ (q :: l3)) m1 m2 with
        | error eB =>
          rw [hrA, hrB] at hequiv
          have : eA = eB := hequiv
          rw [this]
        | ok abB =>
          rw [hrA, hrB] at hequiv
          obtain ⟨b1, b2⟩ := abB
          exact absurd hequiv (by simp [exceptMapsEquiv])
      | ok abA =>
        cases hrB : buildMaps (l2 ++ (q :: l3)) m1 m2 with
        | error eB =>
          rw [hrA, hrB] at hequiv
          obtain ⟨a1, a2⟩ := abA
          exact absurd hequiv (by simp [exceptMapsEquiv])
        | ok abB =>
          rw [hrA, hrB] at hequiv
          obtain ⟨a1, a2⟩ := abA
          obtain ⟨b1, b2⟩ := abB
          have heq : mapEquiv a1 b1 ∧ mapEquiv a2 b2 := hequiv
          have hndA := buildMaps_ok_nodup (l2 ++ (q :: l3)) (aset n p m1) m2 a1 a2 hrA
            (nodup_akeys_aset _ _ _ hnd0.1) hnd0.2
          have hndB := buildMaps_ok_nodup (l2 ++ (q :: l3)) m1 m2 b1 b2 hrB hnd0.1 hnd0.2
          exact joinPairs_congr heq.1 heq.2 hndA.1 hndB.1

/-- C10, witness: two read-1 files with the same filename in different
directories, plus the shared mate — the run with both read-1 files equals
the run without the earlier one: the later silently wins and no error is
raised. -/
theorem c10_later_duplicate_replaces_witness :
    pair_up_gcp_fastq_paths
        [⟨"b", "d1/A_R1_.fastq.gz"⟩, ⟨"b", "d2/A_R1_.fastq.gz"⟩, ⟨"b", "A_R2_.fastq.gz"⟩] =
      pair_up_gcp_fastq_paths [⟨"b", "d2/A_R1_.fastq.gz"⟩, ⟨"b", "A_R2_.fastq.gz"⟩] :=
  c10_later_duplicate_replaces [] [] [⟨"b", "A_R2_.fastq.gz"⟩]
    ⟨"b", "d1/A_R1_.fastq.gz"⟩ ⟨"b", "d2/A_R1_.fastq.gz"⟩ true "A_R?_"
    (by decide) (by decide) (by decide)

end K8
